import Mathlib

/-!
# FLTK-ShapeDrawer: pens, shapes and the canvas

A shallow embedding of `src/fltk-shapedrawer.cpp`.

* C++ `int` values are modelled by `Int`.  Signed overflow is undefined behaviour in C++,
  so the embedding describes the executions in which no `int` sum overflows.
* `Fl_Color` is FLTK's unsigned colour index, modelled by `Nat`.
* The FLTK drawing calls (`fl_color`, `fl_line_style`, `fl_line`, `fl_rectf`, `fl_draw`) act on
  an explicit graphics state `Gfx`: the current colour, the current line style and width, and
  the list of primitives rendered so far, each recorded with the style it was rendered in.
* Objects mutated through a pointer are passed and returned explicitly: `drawLine` returns the
  pen it was called on together with the graphics state; a shape holds the pen it was
  constructed with (every caller in the program allocates one pen per shape).
* `double` values are modelled by the rationals they denote.  `rnd64` is IEEE-754 binary64
  round-to-nearest-even (normal range), applied after every floating-point product and
  quotient; the `<cmath>` functions `cos` and `sin` are a parameter `Libm`.
-/

namespace ShapeDrawer

/-! ## FLTK: colours, line styles, graphics state -/

/-- FLTK colour index (`Fl_Color` is an `unsigned int`). -/
abbrev Fl_Color := Nat

/-- `FL_BLACK` of FLTK's `Enumerations.H`. -/
def FL_BLACK : Fl_Color := 56
/-- `FL_RED` of FLTK's `Enumerations.H`. -/
def FL_RED : Fl_Color := 88
/-- `FL_GREEN` of FLTK's `Enumerations.H`. -/
def FL_GREEN : Fl_Color := 63
/-- `FL_BLUE` of FLTK's `Enumerations.H`. -/
def FL_BLUE : Fl_Color := 216
/-- `FL_WHITE` of FLTK's `Enumerations.H`. -/
def FL_WHITE : Fl_Color := 255
/-- `FL_SOLID` of FLTK's `Enumerations.H` (line style). -/
def FL_SOLID : Int := 0

/-- One primitive rendered by FLTK, with the drawing style in force when it was rendered. -/
inductive Drawn where
  | rectf (x y w h : Int) (color : Fl_Color)
  | line (x1 y1 x2 y2 : Int) (color : Fl_Color) (style : Int) (width : Int)
  | text (s : String) (x y : Int) (color : Fl_Color)
  deriving DecidableEq, Repr

/-- The global FLTK drawing state together with everything rendered so far. -/
structure Gfx where
  color : Fl_Color
  lineStyle : Int
  lineWidth : Int
  out : List Drawn
  deriving DecidableEq, Repr

/-- `fl_color(c)`: set the current drawing colour. -/
def fl_color (c : Fl_Color) (g : Gfx) : Gfx := { g with color := c }

/-- `fl_line_style(style, width)`: set the current line style and width. -/
def fl_line_style (style width : Int) (g : Gfx) : Gfx :=
  { g with lineStyle := style, lineWidth := width }

/-- `fl_line(x1, y1, x2, y2)`: render one segment in the current colour and line style. -/
def fl_line (x1 y1 x2 y2 : Int) (g : Gfx) : Gfx :=
  { g with out := g.out ++ [Drawn.line x1 y1 x2 y2 g.color g.lineStyle g.lineWidth] }

/-- `fl_rectf(x, y, w, h)`: fill a rectangle in the current colour. -/
def fl_rectf (x y w h : Int) (g : Gfx) : Gfx :=
  { g with out := g.out ++ [Drawn.rectf x y w h g.color] }

/-- `fl_draw(str, x, y)`: render a string in the current colour. -/
def fl_draw (s : String) (x y : Int) (g : Gfx) : Gfx :=
  { g with out := g.out ++ [Drawn.text s x y g.color] }

/-! ## Pen and ColorfulPen -/

/-- `class Pen`: colour and thickness. -/
structure Pen where
  color : Fl_Color
  thickness : Int
  deriving DecidableEq, Repr

/-- `Pen(Fl_Color c)`: thickness starts at 1. -/
def Pen.new (c : Fl_Color) : Pen := { color := c, thickness := 1 }

/-- `Pen()`: the constructor's default argument is `FL_BLACK`. -/
def Pen.newDefault : Pen := Pen.new FL_BLACK

/-- `void setThickness(int t) { thickness = t; }` -/
def Pen.setThickness (p : Pen) (t : Int) : Pen := { p with thickness := t }

/-- `int getThickness() const { return thickness; }` -/
def Pen.getThickness (p : Pen) : Int := p.thickness

/-- `void setColor(Fl_Color c) { color = c; }` -/
def Pen.setColor (p : Pen) (c : Fl_Color) : Pen := { p with color := c }

/-- `Fl_Color getColor() const { return color; }` -/
def Pen.getColor (p : Pen) : Fl_Color := p.color

/-- `Pen::drawLine`: select the pen colour and thickness, draw, reset the line style. -/
def Pen.drawLine (p : Pen) (x1 y1 x2 y2 : Int) (g : Gfx) : Gfx :=
  let g := fl_color p.color g
  let g := fl_line_style FL_SOLID p.thickness g
  let g := fl_line x1 y1 x2 y2 g
  fl_line_style FL_SOLID 1 g

/-- `class ColorfulPen : public Pen`: the palette and the index of the current colour. -/
structure ColorfulPen extends Pen where
  colors : List Fl_Color
  currentColorIndex : Nat
  deriving DecidableEq, Repr

/-- `ColorfulPen()`: base `Pen(FL_RED)`, index 0, palette red, green, blue. -/
def ColorfulPen.new : ColorfulPen :=
  { toPen := Pen.new FL_RED, colors := [FL_RED, FL_GREEN, FL_BLUE], currentColorIndex := 0 }

/-- `ColorfulPen::drawLine`: take the colour at the index, draw with the base pen, advance
the index modulo the palette size.  The only constructor gives a palette of three colours and
index 0, and `drawLine` keeps the index below 3, so on a constructed pen `colors[i]` is always in range and the modulus is 3: the fallback value of
`getD` is never used. -/
def ColorfulPen.drawLine (p : ColorfulPen) (x1 y1 x2 y2 : Int) (g : Gfx) : ColorfulPen × Gfx :=
  let p := { p with color := p.colors.getD p.currentColorIndex 0 }
  let g := Pen.drawLine p.toPen x1 y1 x2 y2 g
  ({ p with currentColorIndex := (p.currentColorIndex + 1) % p.colors.length }, g)

/-- What a `Pen*` may point to: a plain `Pen` or a `ColorfulPen`. -/
inductive PenObj where
  | base (p : Pen)
  | colorful (p : ColorfulPen)
  deriving DecidableEq, Repr

/-- The base-class part of a pen object. -/
def PenObj.toPen : PenObj → Pen
  | .base p => p
  | .colorful p => p.toPen

/-- `setThickness` is not virtual: it writes the base-class field. -/
def PenObj.setThickness : PenObj → Int → PenObj
  | .base p, t => .base (p.setThickness t)
  | .colorful p, t => .colorful { p with toPen := p.toPen.setThickness t }

/-- `setColor` is not virtual: it writes the base-class field. -/
def PenObj.setColor : PenObj → Fl_Color → PenObj
  | .base p, c => .base (p.setColor c)
  | .colorful p, c => .colorful { p with toPen := p.toPen.setColor c }

/-- Virtual dispatch of `drawLine`. -/
def PenObj.drawLine : PenObj → Int → Int → Int → Int → Gfx → PenObj × Gfx
  | .base p, x1, y1, x2, y2, g => (.base p, Pen.drawLine p x1 y1 x2 y2 g)
  | .colorful p, x1, y1, x2, y2, g =>
    let r := ColorfulPen.drawLine p x1 y1 x2 y2 g
    (.colorful r.1, r.2)

/-- The end points of one segment. -/
structure Seg where
  x1 : Int
  y1 : Int
  x2 : Int
  y2 : Int
  deriving DecidableEq, Repr

/-- A sequence of `drawLine` calls made one after the other through the same pen. -/
def PenObj.drawLines : PenObj → List Seg → Gfx → PenObj × Gfx
  | p, [], g => (p, g)
  | p, s :: rest, g =>
    let r := p.drawLine s.x1 s.y1 s.x2 s.y2 g
    PenObj.drawLines r.1 rest r.2

/-! ## Floating point -/

/-- Round a non-negative rational to the nearest integer, ties to the even one. -/
def roundHalfEven (x : ℚ) : ℤ :=
  if x - ⌊x⌋ < 1 / 2 then ⌊x⌋
  else if 1 / 2 < x - ⌊x⌋ then ⌊x⌋ + 1
  else if ⌊x⌋ % 2 = 0 then ⌊x⌋ else ⌊x⌋ + 1

/-- The exponent of the unit in the last place of a positive `a`: with `e = ulpExp a`,
`2^52 ≤ a / 2^e < 2^53`. -/
def ulpExp (a : ℚ) : ℤ := Int.log 2 a - 52

/-- Binary64 rounding of a positive magnitude: 53 significant bits, nearest, ties to even. -/
def rndAbs (a : ℚ) : ℚ := (roundHalfEven (a / 2 ^ ulpExp a) : ℚ) * 2 ^ ulpExp a

/-- IEEE-754 binary64 round-to-nearest-even of the exact result of an operation
(sign and magnitude; exponent range not limited). -/
def rnd64 (q : ℚ) : ℚ :=
  if q = 0 then 0 else if 0 < q then rndAbs q else -rndAbs (-q)

/-- `static_cast<int>(d)`: truncation toward zero. -/
def truncToInt (q : ℚ) : Int := if 0 ≤ q then ⌊q⌋ else ⌈q⌉

/-- `M_PI`: the binary64 value of `3.14159265358979323846`. -/
def M_PI : ℚ := 884279719003555 / 281474976710656

/-- The two `<cmath>` functions the program calls, as functions on the values of doubles. -/
structure Libm where
  cos : ℚ → ℚ
  sin : ℚ → ℚ

/-! ## Shapes -/

/-- `class Line : public Shape` -/
structure Line where
  pen : PenObj
  x1 : Int
  y1 : Int
  x2 : Int
  y2 : Int

/-- `class Rectangle : public Shape` -/
structure Rectangle where
  pen : PenObj
  x : Int
  y : Int
  width : Int
  height : Int

/-- `class Circle : public Shape` -/
structure Circle where
  pen : PenObj
  cx : Int
  cy : Int
  radius : Int

/-- `Line::draw`: one `drawLine` call. -/
def Line.draw (s : Line) (g : Gfx) : Line × Gfx :=
  let r := s.pen.drawLine s.x1 s.y1 s.x2 s.y2 g
  ({ s with pen := r.1 }, r.2)

/-- `Rectangle::draw`: top, right, bottom, left edge. -/
def Rectangle.draw (s : Rectangle) (g : Gfx) : Rectangle × Gfx :=
  let r := s.pen.drawLine s.x s.y (s.x + s.width) s.y g
  let r := r.1.drawLine (s.x + s.width) s.y (s.x + s.width) (s.y + s.height) r.2
  let r := r.1.drawLine (s.x + s.width) (s.y + s.height) s.x (s.y + s.height) r.2
  let r := r.1.drawLine s.x (s.y + s.height) s.x s.y r.2
  ({ s with pen := r.1 }, r.2)

/-- `const int segments = 100;` -/
def Circle.segments : Nat := 100

/-- `double angleStep = 2 * M_PI / segments;` -/
def Circle.angleStep : ℚ := rnd64 (rnd64 (2 * M_PI) / (Circle.segments : ℚ))

/-- `double angle = i * angleStep;` -/
def Circle.angle (i : Nat) : ℚ := rnd64 ((i : ℚ) * Circle.angleStep)

/-- `int newX = cx + static_cast<int>(radius * cos(angle));` -/
def Circle.newX (L : Libm) (s : Circle) (i : Nat) : Int :=
  s.cx + truncToInt (rnd64 ((s.radius : ℚ) * L.cos (Circle.angle i)))

/-- `int newY = cy + static_cast<int>(radius * sin(angle));` -/
def Circle.newY (L : Libm) (s : Circle) (i : Nat) : Int :=
  s.cy + truncToInt (rnd64 ((s.radius : ℚ) * L.sin (Circle.angle i)))

/-- The loop `for (int i = 1; i <= segments; ++i)` of `Circle::draw`, entered at `i` with
`n = segments + 1 - i` iterations left. -/
def Circle.drawLoop (L : Libm) (s : Circle) :
    Nat → Nat → Int → Int → PenObj → Gfx → PenObj × Gfx
  | 0, _, _, _, pen, g => (pen, g)
  | n + 1, i, prevX, prevY, pen, g =>
    let newX := Circle.newX L s i
    let newY := Circle.newY L s i
    let r := pen.drawLine prevX prevY newX newY g
    Circle.drawLoop L s n (i + 1) newX newY r.1 r.2

/-- `Circle::draw`: start at `(cx + radius, cy)` and run the loop from `i = 1`. -/
def Circle.draw (L : Libm) (s : Circle) (g : Gfx) : Circle × Gfx :=
  let prevX := s.cx + s.radius
  let prevY := s.cy
  let r := Circle.drawLoop L s Circle.segments 1 prevX prevY s.pen g
  ({ s with pen := r.1 }, r.2)

/-- `class Shape` with its three subclasses. -/
inductive Shape where
  | line (s : Line)
  | rectangle (s : Rectangle)
  | circle (s : Circle)

/-- The pen a shape holds. -/
def Shape.pen : Shape → PenObj
  | .line s => s.pen
  | .rectangle s => s.pen
  | .circle s => s.pen

/-- Virtual dispatch of `draw`. -/
def Shape.draw (L : Libm) : Shape → Gfx → Shape × Gfx
  | .line s, g => let r := s.draw g; (.line r.1, r.2)
  | .rectangle s, g => let r := s.draw g; (.rectangle r.1, r.2)
  | .circle s, g => let r := s.draw L g; (.circle r.1, r.2)

/-! ## Canvas -/

/-- `class Canvas : public Fl_Widget`: the widget's bounds and the shapes. -/
structure Canvas where
  x : Int
  y : Int
  w : Int
  h : Int
  shapes : List Shape

/-- `Canvas(X, Y, W, H)`: no shapes yet. -/
def Canvas.new (X Y W H : Int) : Canvas := { x := X, y := Y, w := W, h := H, shapes := [] }

/-- `void addShape(Shape* shape) { shapes.push_back(shape); }` -/
def Canvas.addShape (c : Canvas) (s : Shape) : Canvas := { c with shapes := c.shapes ++ [s] }

/-- The loop `for (int i = 0; i <= h(); i += 50)`, entered at `i`; `x`, `y`, `h` are the
widget's `x()`, `y()`, `h()`. -/
def Canvas.yAxisLoop (x y h : Int) (i : Int) (g : Gfx) : Gfx :=
  if i ≤ h then
    let label : Int := 550 - (Int.tdiv i 50) * 50
    let g := fl_draw (toString label) (x - 30) (y + h - i) g
    let g := fl_line (x - 5) (y + h - i) (x + 5) (y + h - i) g
    Canvas.yAxisLoop x y h (i + 50) g
  else g
termination_by (h + 1 - i).toNat
decreasing_by omega

/-- The loop `for (int i = 0; i <= 750; i += 50)`, entered at `i`; `x`, `y`, `h` are the
widget's `x()`, `y()`, `h()`. -/
def Canvas.xAxisLoop (x y h : Int) (i : Int) (g : Gfx) : Gfx :=
  if i ≤ 750 then
    let label : Int := 50 + (Int.tdiv i 50) * 50
    let g := fl_draw (toString label) (x + i) (y + h + 15) g
    let g := fl_line (x + i) (y + h - 5) (x + i) (y + h + 5) g
    Canvas.xAxisLoop x y h (i + 50) g
  else g
termination_by (751 - i).toNat
decreasing_by omega

/-- The part of `Canvas::draw` before the shapes: background, the two axes, the tick marks
and labels. -/
def Canvas.drawAxes (c : Canvas) (g : Gfx) : Gfx :=
  let g := fl_color FL_WHITE g
  let g := fl_rectf c.x c.y c.w c.h g
  let g := fl_color FL_BLACK g
  let g := fl_line c.x (c.y + c.h) (c.x + c.w) (c.y + c.h) g
  let g := fl_line c.x c.y c.x (c.y + c.h) g
  let g := Canvas.yAxisLoop c.x c.y c.h 0 g
  Canvas.xAxisLoop c.x c.y c.h 0 g

/-- The loop `for (auto& shape : shapes) shape->draw();`. -/
def Canvas.drawShapes (L : Libm) : List Shape → Gfx → List Shape × Gfx
  | [], g => ([], g)
  | s :: rest, g =>
    let r := s.draw L g
    let q := Canvas.drawShapes L rest r.2
    (r.1 :: q.1, q.2)

/-- `Canvas::draw`. -/
def Canvas.draw (L : Libm) (c : Canvas) (g : Gfx) : Canvas × Gfx :=
  let g := Canvas.drawAxes c g
  let r := Canvas.drawShapes L c.shapes g
  ({ c with shapes := r.1 }, r.2)

/-- The canvas is repainted `k` times in a row. -/
def Canvas.repaint (L : Libm) : Nat → Canvas → Gfx → Canvas × Gfx
  | 0, c, g => (c, g)
  | k + 1, c, g =>
    let r := Canvas.draw L c g
    Canvas.repaint L k r.1 r.2

/-! ## Vocabulary of the statements -/

/-- The colour in which the next `drawLine` call of the pen draws. -/
def PenObj.nextColor : PenObj → Fl_Color
  | .base p => p.color
  | .colorful p => p.colors.getD p.currentColorIndex 0

/-- The pen object as one `drawLine` call leaves it. -/
def PenObj.step : PenObj → PenObj
  | .base p => .base p
  | .colorful p =>
    .colorful { color := p.colors.getD p.currentColorIndex 0, thickness := p.thickness,
                colors := p.colors,
                currentColorIndex := (p.currentColorIndex + 1) % p.colors.length }

/-- The pen object as `n` successive `drawLine` calls leave it. -/
def PenObj.stepN : Nat → PenObj → PenObj
  | 0, p => p
  | n + 1, p => PenObj.stepN n p.step

/-- The primitives rendered when the segments are drawn one after the other through the pen. -/
def PenObj.strokes : PenObj → List Seg → List Drawn
  | _, [] => []
  | p, s :: rest =>
    Drawn.line s.x1 s.y1 s.x2 s.y2 p.nextColor FL_SOLID p.toPen.thickness
      :: PenObj.strokes p.step rest

/-- The end points of a rendered primitive, when it is a line. -/
def Drawn.seg : Drawn → Option Seg
  | .line x1 y1 x2 y2 _ _ _ => some ⟨x1, y1, x2, y2⟩
  | _ => none

/-- The colour a primitive was rendered in. -/
def Drawn.color : Drawn → Fl_Color
  | .rectf _ _ _ _ c => c
  | .line _ _ _ _ c _ _ => c
  | .text _ _ _ c => c

/-- The palette of a constructed `ColorfulPen`. -/
def palette : List Fl_Color := [FL_RED, FL_GREEN, FL_BLUE]

/-- A `ColorfulPen` with the constructor's palette, in a given state. -/
def ColorfulPen.mk3 (color : Fl_Color) (thickness : Int) (index : Nat) : ColorfulPen :=
  { color := color, thickness := thickness, colors := palette, currentColorIndex := index }

/-- Where a segment starts. -/
def Seg.start (s : Seg) : Int × Int := (s.x1, s.y1)

/-- Where a segment ends. -/
def Seg.stop (s : Seg) : Int × Int := (s.x2, s.y2)

/-- Every segment but the first starts where the one before it ends. -/
def connected : List Seg → Bool
  | [] => true
  | [_] => true
  | a :: b :: rest => decide (a.stop = b.start) && connected (b :: rest)

/-- A segment of length zero at the point `(px, py)`. -/
def Seg.isPoint (px py : Int) (s : Seg) : Bool :=
  decide (s.x1 = px) && decide (s.y1 = py) && decide (s.x2 = px) && decide (s.y2 = py)

/-- The segment `Line::draw` passes to `drawLine`. -/
def Line.segs (s : Line) : List Seg := [⟨s.x1, s.y1, s.x2, s.y2⟩]

/-- The segments `Rectangle::draw` passes to `drawLine`: top, right, bottom, left. -/
def Rectangle.edges (s : Rectangle) : List Seg :=
  [⟨s.x, s.y, s.x + s.width, s.y⟩,
   ⟨s.x + s.width, s.y, s.x + s.width, s.y + s.height⟩,
   ⟨s.x + s.width, s.y + s.height, s.x, s.y + s.height⟩,
   ⟨s.x, s.y + s.height, s.x, s.y⟩]

/-- The polygon vertices of `Circle::draw`: vertex 0 is the start point, vertex `i` is the
point computed in iteration `i`. -/
def Circle.vertex (L : Libm) (s : Circle) : Nat → Int × Int
  | 0 => (s.cx + s.radius, s.cy)
  | i + 1 => (Circle.newX L s (i + 1), Circle.newY L s (i + 1))

/-- The segment from vertex `k` to vertex `k + 1`. -/
def Circle.chord (L : Libm) (s : Circle) (k : Nat) : Seg :=
  ⟨(Circle.vertex L s k).1, (Circle.vertex L s k).2,
   (Circle.vertex L s (k + 1)).1, (Circle.vertex L s (k + 1)).2⟩

/-- The segments `Circle::draw` passes to `drawLine`. -/
def Circle.segs (L : Libm) (s : Circle) : List Seg :=
  (List.range Circle.segments).map (Circle.chord L s)

/-- The segments a shape passes to `drawLine` in one `draw`. -/
def Shape.segs (L : Libm) : Shape → List Seg
  | .line s => s.segs
  | .rectangle s => s.edges
  | .circle s => s.segs L

/-- The same geometry held with another pen (state). -/
def Shape.setPen : Shape → PenObj → Shape
  | .line s, p => .line { s with pen := p }
  | .rectangle s, p => .rectangle { s with pen := p }
  | .circle s, p => .circle { s with pen := p }

/-- A shape as the input forms and the random-shape callbacks of the program create it: bound
to a new `ColorfulPen` whose thickness has been set to `t`. -/
def Shape.withFreshColorfulPen (s : Shape) (t : Int) : Shape :=
  s.setPen ((PenObj.colorful ColorfulPen.new).setThickness t)

/-- The shape is drawn `k` times in a row. -/
def Shape.redraw (L : Libm) : Nat → Shape → Gfx → Shape × Gfx
  | 0, s, g => (s, g)
  | k + 1, s, g =>
    let r := s.draw L g
    Shape.redraw L k r.1 r.2

/-- What the iteration with loop index `i` of the Y-axis loop renders when the current colour
and line style are `color`, `style`, `width`: the label, then the tick mark. -/
def Canvas.yTick (x y h i : Int) (color : Fl_Color) (style width : Int) : List Drawn :=
  [Drawn.text (toString (550 - (Int.tdiv i 50) * 50)) (x - 30) (y + h - i) color,
   Drawn.line (x - 5) (y + h - i) (x + 5) (y + h - i) color style width]

/-- What the iteration with loop index `i` of the X-axis loop renders when the current colour
and line style are `color`, `style`, `width`: the label, then the tick mark. -/
def Canvas.xTick (x y h i : Int) (color : Fl_Color) (style width : Int) : List Drawn :=
  [Drawn.text (toString (50 + (Int.tdiv i 50) * 50)) (x + i) (y + h + 15) color,
   Drawn.line (x + i) (y + h - 5) (x + i) (y + h + 5) color style width]

/-- A sample math library: the Taylor polynomials `1 - x²/2` and `x - x³/6`, which are within
`5·x⁴/96` of the cosine and the sine for `|x| ≤ 1`. -/
def taylorLibm : Libm :=
  { cos := fun x => 1 - x ^ 2 / 2
    sin := fun x => x - x ^ 3 / 6 }

/-- A sample math library that returns, at the last angle `100 * angleStep` of the loop of
`Circle::draw`, the binary64 values nearest to the cosine and the sine of that angle
(`1.0` and `6.432490598706546e-16`), and follows `taylorLibm` elsewhere. -/
def sampleLibm : Libm :=
  { cos := fun x => if x = Circle.angle 100 then 1 else taylorLibm.cos x
    sin := fun x =>
      if x = Circle.angle 100 then 6523320454730237 / 10141204801825835211973625643008
      else taylorLibm.sin x }

/-! ## Pens: the effect of `drawLine` -/

theorem drawLine_eq (p : PenObj) (x1 y1 x2 y2 : Int) (g : Gfx) :
    p.drawLine x1 y1 x2 y2 g =
      (p.step, { color := p.nextColor, lineStyle := FL_SOLID, lineWidth := 1,
                 out := g.out ++ [Drawn.line x1 y1 x2 y2 p.nextColor FL_SOLID
                                    p.toPen.thickness] }) := by
  cases p <;> rfl

theorem drawLines_eq (segs : List Seg) :
    ∀ (p : PenObj) (g : Gfx),
      (p.drawLines segs g).1 = PenObj.stepN segs.length p ∧
      (p.drawLines segs g).2.out = g.out ++ p.strokes segs := by
  induction segs with
  | nil => intro p g; simp [PenObj.drawLines, PenObj.stepN, PenObj.strokes]
  | cons s rest ih =>
    intro p g
    have h := ih p.step (p.drawLine s.x1 s.y1 s.x2 s.y2 g).2
    simp only [drawLine_eq] at h
    simp only [PenObj.drawLines, drawLine_eq, List.length_cons, PenObj.stepN, PenObj.strokes]
    refine ⟨h.1, ?_⟩
    rw [h.2]
    simp

theorem strokes_length (segs : List Seg) : ∀ p : PenObj, (p.strokes segs).length = segs.length := by
  induction segs with
  | nil => intro p; rfl
  | cons s rest ih => intro p; simp [PenObj.strokes, ih]

theorem strokes_seg (segs : List Seg) :
    ∀ p : PenObj, (p.strokes segs).map Drawn.seg = segs.map some := by
  induction segs with
  | nil => intro p; rfl
  | cons s rest ih => intro p; simp [PenObj.strokes, ih, Drawn.seg]

theorem strokes_append (a : List Seg) :
    ∀ (p : PenObj) (b : List Seg),
      p.strokes (a ++ b) = p.strokes a ++ (PenObj.stepN a.length p).strokes b := by
  induction a with
  | nil => intro p b; rfl
  | cons s rest ih => intro p b; simp [PenObj.strokes, PenObj.stepN, ih]

theorem stepN_add (m : Nat) :
    ∀ (n : Nat) (p : PenObj), PenObj.stepN (m + n) p = PenObj.stepN n (PenObj.stepN m p) := by
  induction m with
  | zero => intro n p; simp [PenObj.stepN]
  | succ m ih => intro n p; rw [Nat.succ_add]; simp [PenObj.stepN, ih]

theorem mk3_nextColor (c : Fl_Color) (t : Int) (a : Nat) :
    (PenObj.colorful (ColorfulPen.mk3 c t (a % 3))).nextColor = palette.getD (a % 3) 0 := rfl

theorem mk3_step (c : Fl_Color) (t : Int) (a : Nat) :
    (PenObj.colorful (ColorfulPen.mk3 c t (a % 3))).step =
      PenObj.colorful (ColorfulPen.mk3 (palette.getD (a % 3) 0) t ((a + 1) % 3)) := by
  simp [PenObj.step, ColorfulPen.mk3, palette]

theorem mk3_stepN (n : Nat) :
    ∀ (c : Fl_Color) (t : Int) (a : Nat),
      PenObj.stepN (n + 1) (PenObj.colorful (ColorfulPen.mk3 c t (a % 3))) =
        PenObj.colorful (ColorfulPen.mk3 (palette.getD ((a + n) % 3) 0) t ((a + n + 1) % 3)) := by
  induction n with
  | zero => intro c t a; simp [PenObj.stepN, mk3_step]
  | succ n ih =>
    intro c t a
    rw [PenObj.stepN, mk3_step, ih]
    have h : a + 1 + n = a + (n + 1) := by omega
    rw [h]

theorem mk3_strokes_getElem (segs : List Seg) :
    ∀ (c : Fl_Color) (t : Int) (a i : Nat) (h : i < segs.length),
      ((PenObj.colorful (ColorfulPen.mk3 c t (a % 3))).strokes segs)[i]? =
        some (Drawn.line segs[i].x1 segs[i].y1 segs[i].x2 segs[i].y2
                (palette.getD ((a + i) % 3) 0) FL_SOLID t) := by
  induction segs with
  | nil => intro c t a i h; simp at h
  | cons s rest ih =>
    intro c t a i h
    cases i with
    | zero => simp [PenObj.strokes, mk3_nextColor]; rfl
    | succ i =>
      have h2 : i < rest.length := by simpa using h
      rw [PenObj.strokes, mk3_step]
      simp only [List.getElem?_cons_succ, List.getElem_cons_succ]
      rw [ih _ t (a + 1) i h2]
      have h3 : a + 1 + i = a + (i + 1) := by omega
      rw [h3]

/-! ## Shapes: `draw` as a sequence of `drawLine` calls -/

theorem line_draw_eq (s : Line) (g : Gfx) :
    s.draw g = ({ s with pen := (s.pen.drawLines s.segs g).1 }, (s.pen.drawLines s.segs g).2) := by
  simp [Line.draw, Line.segs, PenObj.drawLines]

theorem rectangle_draw_eq (s : Rectangle) (g : Gfx) :
    s.draw g =
      ({ s with pen := (s.pen.drawLines s.edges g).1 }, (s.pen.drawLines s.edges g).2) := by
  simp [Rectangle.draw, Rectangle.edges, PenObj.drawLines]

theorem circle_drawLoop_eq (L : Libm) (s : Circle) (n : Nat) :
    ∀ (i : Nat) (pen : PenObj) (g : Gfx),
      Circle.drawLoop L s n (i + 1) (Circle.vertex L s i).1 (Circle.vertex L s i).2 pen g =
        pen.drawLines ((List.range n).map (fun k => Circle.chord L s (i + k))) g := by
  induction n with
  | zero => intro i pen g; simp [Circle.drawLoop, PenObj.drawLines]
  | succ n ih =>
    intro i pen g
    rw [List.range_succ_eq_map]
    simp only [List.map_cons, List.map_map, PenObj.drawLines, Circle.drawLoop]
    have hv : Circle.vertex L s (i + 1) = (Circle.newX L s (i + 1), Circle.newY L s (i + 1)) := rfl
    have h := ih (i + 1) (pen.drawLine (Circle.vertex L s i).1 (Circle.vertex L s i).2
      (Circle.newX L s (i + 1)) (Circle.newY L s (i + 1)) g).1
      (pen.drawLine (Circle.vertex L s i).1 (Circle.vertex L s i).2
      (Circle.newX L s (i + 1)) (Circle.newY L s (i + 1)) g).2
    rw [hv] at h
    simp only at h
    rw [h]
    have hf : (fun k => Circle.chord L s (i + 1 + k)) =
        ((fun k => Circle.chord L s (i + k)) ∘ Nat.succ) := by
      funext k
      simp only [Function.comp, Nat.succ_eq_add_one]
      congr 1
      omega
    rw [hf]
    rfl

theorem circle_draw_eq (L : Libm) (s : Circle) (g : Gfx) :
    s.draw L g =
      ({ s with pen := (s.pen.drawLines (s.segs L) g).1 }, (s.pen.drawLines (s.segs L) g).2) := by
  have h := circle_drawLoop_eq L s Circle.segments 0 s.pen g
  simp only [Nat.zero_add] at h
  simp only [Circle.draw, Circle.segs]
  have hv : Circle.vertex L s 0 = (s.cx + s.radius, s.cy) := rfl
  rw [hv] at h
  simp only at h
  rw [h]

/-! ## C1: a fresh `ColorfulPen` cycles red, green, blue -/

/-- C1. Through a freshly constructed `ColorfulPen`, any sequence of `drawLine` calls renders
one line per call, the `i`-th (0-indexed) with the end points of the `i`-th call, in colour
`palette[i mod 3]` and thickness 1; after the `i`-th call the pen's index is `(i + 1) mod 3`,
which is below 3; and a rectangle drawn once with a fresh `ColorfulPen` renders four lines
coloured red, green, blue, red. -/
theorem colorfulPen_cycles_palette (segs : List Seg) (g : Gfx) :
    ColorfulPen.new.colors = [FL_RED, FL_GREEN, FL_BLUE] ∧
    ColorfulPen.new.currentColorIndex = 0 ∧
    ((PenObj.colorful ColorfulPen.new).drawLines segs g).2.out.length
      = g.out.length + segs.length ∧
    (∀ (i : Nat) (h : i < segs.length),
      ((PenObj.colorful ColorfulPen.new).drawLines segs g).2.out[g.out.length + i]? =
        some (Drawn.line segs[i].x1 segs[i].y1 segs[i].x2 segs[i].y2
                ([FL_RED, FL_GREEN, FL_BLUE].getD (i % 3) 0) FL_SOLID 1)) ∧
    (∀ i : Nat, i < segs.length →
      ((PenObj.colorful ColorfulPen.new).drawLines (segs.take (i + 1)) g).1 =
        PenObj.colorful { color := [FL_RED, FL_GREEN, FL_BLUE].getD (i % 3) 0, thickness := 1,
                          colors := [FL_RED, FL_GREEN, FL_BLUE],
                          currentColorIndex := (i + 1) % 3 } ∧
      (i + 1) % 3 < 3) ∧
    (∀ x y w h : Int,
      (Rectangle.draw ⟨PenObj.colorful ColorfulPen.new, x, y, w, h⟩ g).2.out =
        g.out ++ [Drawn.line x y (x + w) y FL_RED FL_SOLID 1,
                  Drawn.line (x + w) y (x + w) (y + h) FL_GREEN FL_SOLID 1,
                  Drawn.line (x + w) (y + h) x (y + h) FL_BLUE FL_SOLID 1,
                  Drawn.line x (y + h) x y FL_RED FL_SOLID 1]) := by
  have hnew : ColorfulPen.new = ColorfulPen.mk3 FL_RED 1 (0 % 3) := rfl
  refine ⟨rfl, rfl, ?_, ?_, ?_, ?_⟩
  · rw [(drawLines_eq segs _ g).2, List.length_append, strokes_length]
  · intro i h
    rw [(drawLines_eq segs _ g).2, List.getElem?_append_right (Nat.le_add_right _ _),
      Nat.add_sub_cancel_left, hnew, mk3_strokes_getElem segs FL_RED 1 0 i h, Nat.zero_add]
    rfl
  · intro i h
    refine ⟨?_, Nat.mod_lt _ (by decide)⟩
    have hlen : (segs.take (i + 1)).length = i + 1 := by
      rw [List.length_take]; omega
    rw [(drawLines_eq _ _ g).1, hlen, hnew, mk3_stepN i FL_RED 1 0, Nat.zero_add]
    rfl
  · intro x y w h
    rw [rectangle_draw_eq]
    simp only [(drawLines_eq _ _ _).2]
    rfl

/-! ## C2: the four edges of a rectangle -/

/-- C2. For every rectangle and every pen, `Rectangle::draw` is exactly the four `drawLine`
calls top, right, bottom, left, in that order; it renders four lines whose end points are
`(x,y)-(x+w,y)`, `(x+w,y)-(x+w,y+h)`, `(x+w,y+h)-(x,y+h)`, `(x,y+h)-(x,y)`; each of them starts
where the one before ends, and the last one ends where the first one starts. -/
theorem rectangle_draw_traces_edges (pen : PenObj) (x y w h : Int) (g : Gfx) :
    (Rectangle.draw ⟨pen, x, y, w, h⟩ g).2 =
      (pen.drawLines [⟨x, y, x + w, y⟩, ⟨x + w, y, x + w, y + h⟩,
                      ⟨x + w, y + h, x, y + h⟩, ⟨x, y + h, x, y⟩] g).2 ∧
    (Rectangle.draw ⟨pen, x, y, w, h⟩ g).2.out =
      g.out ++ pen.strokes [⟨x, y, x + w, y⟩, ⟨x + w, y, x + w, y + h⟩,
                            ⟨x + w, y + h, x, y + h⟩, ⟨x, y + h, x, y⟩] ∧
    (pen.strokes [⟨x, y, x + w, y⟩, ⟨x + w, y, x + w, y + h⟩,
                  ⟨x + w, y + h, x, y + h⟩, ⟨x, y + h, x, y⟩]).map Drawn.seg =
      [some ⟨x, y, x + w, y⟩, some ⟨x + w, y, x + w, y + h⟩,
       some ⟨x + w, y + h, x, y + h⟩, some ⟨x, y + h, x, y⟩] ∧
    connected [⟨x, y, x + w, y⟩, ⟨x + w, y, x + w, y + h⟩,
               ⟨x + w, y + h, x, y + h⟩, ⟨x, y + h, x, y⟩] = true ∧
    Seg.stop ⟨x, y + h, x, y⟩ = Seg.start ⟨x, y, x + w, y⟩ := by
  refine ⟨?_, ?_, ?_, ?_, rfl⟩
  · rw [rectangle_draw_eq]; rfl
  · rw [rectangle_draw_eq]
    exact (drawLines_eq _ _ _).2
  · rw [strokes_seg]; rfl
  · simp [connected, Seg.stop, Seg.start]

/-! ## C7: the thickness of a pen -/

/-- C7 (as stated, refuted). `setThickness` stores its argument unchecked: after
`setThickness(0)` on a freshly constructed pen the thickness is 0, so `thickness ≥ 1` is not
preserved by every call of `setThickness`. -/
theorem setThickness_zero_breaks_invariant :
    1 ≤ (Pen.new FL_BLACK).getThickness ∧
    ((Pen.new FL_BLACK).setThickness 0).getThickness = 0 ∧
    ¬ (1 ≤ ((Pen.new FL_BLACK).setThickness 0).getThickness) := by
  decide

/-- C7 (amended). A constructed pen has thickness 1; `setThickness(t)` stores `t` whatever it
is; and for a pen (plain or colourful) with `thickness ≥ 1`, the property `thickness ≥ 1` still
holds after `setColor(c)`, after `drawLine`, and after `setThickness(t)` with `t ≥ 1`. -/
theorem thickness_invariant_for_positive_arguments (p : PenObj) (hp : 1 ≤ p.toPen.getThickness)
    (t : Int) (ht : 1 ≤ t) (c : Fl_Color) (x1 y1 x2 y2 : Int) (g : Gfx) :
    (Pen.new c).getThickness = 1 ∧
    ColorfulPen.new.toPen.getThickness = 1 ∧
    (∀ u : Int, (p.setThickness u).toPen.getThickness = u) ∧
    1 ≤ (p.setThickness t).toPen.getThickness ∧
    1 ≤ (p.setColor c).toPen.getThickness ∧
    1 ≤ (p.drawLine x1 y1 x2 y2 g).1.toPen.getThickness := by
  cases p with
  | base q => exact ⟨rfl, rfl, fun _ => rfl, ht, hp, hp⟩
  | colorful q => exact ⟨rfl, rfl, fun _ => rfl, ht, hp, hp⟩

/-- C7 (witness): a fresh `ColorfulPen`, `t = 5`. -/
theorem thickness_invariant_witness :
    1 ≤ ((PenObj.colorful ColorfulPen.new).setThickness 5).toPen.getThickness ∧
    1 ≤ ((PenObj.colorful ColorfulPen.new).drawLine 0 0 10 0 ⟨FL_BLACK, FL_SOLID, 0, []⟩).1.toPen.getThickness :=
  have h := thickness_invariant_for_positive_arguments (PenObj.colorful ColorfulPen.new)
    (by decide) 5 (by decide) FL_RED 0 0 10 0 ⟨FL_BLACK, FL_SOLID, 0, []⟩
  ⟨h.2.2.2.1, h.2.2.2.2.2⟩

/-! ## C8: what `Pen::drawLine` leaves behind -/

/-- C8 (as stated, refuted). `Pen::drawLine` does not put the current drawing colour back:
starting from a state whose colour is black, a red pen leaves red and a blue pen leaves blue,
so the colour afterwards is neither the colour before the call nor any fixed default. -/
theorem drawLine_leaves_pen_colour :
    (Pen.drawLine (Pen.new FL_RED) 0 0 10 0 ⟨FL_BLACK, FL_SOLID, 0, []⟩).color = FL_RED ∧
    (Pen.drawLine (Pen.new FL_BLUE) 0 0 10 0 ⟨FL_BLACK, FL_SOLID, 0, []⟩).color = FL_BLUE ∧
    FL_RED ≠ FL_BLACK ∧ FL_RED ≠ FL_BLUE ∧
    ¬ ∃ d : Fl_Color, ∀ (p : Pen) (x1 y1 x2 y2 : Int) (g : Gfx),
        (Pen.drawLine p x1 y1 x2 y2 g).color = d := by
  refine ⟨rfl, rfl, by decide, by decide, ?_⟩
  rintro ⟨d, hd⟩
  have h1 := hd (Pen.new FL_RED) 0 0 10 0 ⟨FL_BLACK, FL_SOLID, 0, []⟩
  have h2 := hd (Pen.new FL_BLUE) 0 0 10 0 ⟨FL_BLACK, FL_SOLID, 0, []⟩
  have h3 : FL_RED = FL_BLUE := h1.trans h2.symm
  exact absurd h3 (by decide)

/-- C8 (amended). For every pen and every segment, `Pen::drawLine` renders exactly one line,
from `(x1,y1)` to `(x2,y2)`, solid, in the pen's current colour and thickness, and leaves
everything rendered before untouched; when it returns the global line style is `FL_SOLID` with
width 1 whatever the pen's thickness, and the global drawing colour is the pen's colour. -/
theorem drawLine_effect (p : Pen) (x1 y1 x2 y2 : Int) (g : Gfx) :
    Pen.drawLine p x1 y1 x2 y2 g =
      { color := p.getColor, lineStyle := FL_SOLID, lineWidth := 1,
        out := g.out ++ [Drawn.line x1 y1 x2 y2 p.getColor FL_SOLID p.getThickness] } := by
  rfl

/-! ## C9: the setters of a pen -/

/-- C9. On a `Pen`, `setThickness(t)` twice is the same as once and `setColor(c)` twice the
same as once; `setThickness` leaves `getColor()` unchanged and `setColor` leaves
`getThickness()` unchanged; each getter returns what its setter stored; and the two setters
commute. -/
theorem pen_setters_idempotent_independent (p : Pen) (t : Int) (c : Fl_Color) :
    (p.setThickness t).setThickness t = p.setThickness t ∧
    (p.setColor c).setColor c = p.setColor c ∧
    (p.setThickness t).getColor = p.getColor ∧
    (p.setColor c).getThickness = p.getThickness ∧
    (p.setThickness t).getThickness = t ∧
    (p.setColor c).getColor = c ∧
    (p.setThickness t).setColor c = (p.setColor c).setThickness t := by
  exact ⟨rfl, rfl, rfl, rfl, rfl, rfl, rfl⟩

/-! ## Canvas: shapes are drawn in list order, pens keep their state -/

theorem shape_segs_setPen (L : Libm) (s : Shape) (p : PenObj) :
    (s.setPen p).segs L = s.segs L := by
  cases s <;> rfl

theorem shape_pen_setPen (s : Shape) (p : PenObj) : (s.setPen p).pen = p := by
  cases s <;> rfl

theorem shape_setPen_setPen (s : Shape) (p q : PenObj) : (s.setPen p).setPen q = s.setPen q := by
  cases s <;> rfl

theorem shape_setPen_pen (s : Shape) : s.setPen s.pen = s := by
  cases s <;> rfl

theorem shape_draw_eq (L : Libm) (s : Shape) (g : Gfx) :
    s.draw L g =
      (s.setPen (s.pen.drawLines (s.segs L) g).1, (s.pen.drawLines (s.segs L) g).2) := by
  cases s with
  | line s => simp only [Shape.draw, line_draw_eq]; rfl
  | rectangle s => simp only [Shape.draw, rectangle_draw_eq]; rfl
  | circle s => simp only [Shape.draw, circle_draw_eq]; rfl

theorem shape_draw_fst (L : Libm) (s : Shape) (g : Gfx) :
    (s.draw L g).1 = s.setPen (PenObj.stepN (s.segs L).length s.pen) := by
  rw [shape_draw_eq, (drawLines_eq _ _ _).1]

theorem shape_draw_out (L : Libm) (s : Shape) (g : Gfx) :
    (s.draw L g).2.out = g.out ++ s.pen.strokes (s.segs L) := by
  rw [shape_draw_eq, (drawLines_eq _ _ _).2]

theorem shape_redraw_fst (L : Libm) (k : Nat) :
    ∀ (s : Shape) (g : Gfx),
      (Shape.redraw L k s g).1 = s.setPen (PenObj.stepN (k * (s.segs L).length) s.pen) := by
  induction k with
  | zero => intro s g; simp [Shape.redraw, PenObj.stepN, shape_setPen_pen]
  | succ k ih =>
    intro s g
    rw [Shape.redraw, ih, shape_draw_fst, shape_segs_setPen, shape_pen_setPen,
      shape_setPen_setPen, ← stepN_add]
    congr 2
    ring

theorem drawShapes_fst (L : Libm) (ss : List Shape) :
    ∀ g : Gfx, (Canvas.drawShapes L ss g).1 = ss.map (fun s => (s.draw L g).1) := by
  induction ss with
  | nil => intro g; rfl
  | cons s rest ih =>
    intro g
    simp only [Canvas.drawShapes, List.map_cons, ih]
    refine congrArg _ (List.map_congr_left ?_)
    intro x _
    rw [shape_draw_fst, shape_draw_fst]

theorem drawShapes_snd (L : Libm) (ss : List Shape) :
    ∀ g : Gfx,
      (Canvas.drawShapes L ss g).2 = ss.foldl (fun g s => (s.draw L g).2) g := by
  induction ss with
  | nil => intro g; rfl
  | cons s rest ih => intro g; simp only [Canvas.drawShapes, List.foldl_cons, ih]

theorem drawShapes_out (L : Libm) (ss : List Shape) :
    ∀ g : Gfx,
      (Canvas.drawShapes L ss g).2.out =
        g.out ++ ss.flatMap (fun s => s.pen.strokes (s.segs L)) := by
  induction ss with
  | nil => intro g; simp [Canvas.drawShapes]
  | cons s rest ih =>
    intro g
    simp only [Canvas.drawShapes, List.flatMap_cons, ih, shape_draw_out, List.append_assoc]

theorem canvas_repaint_fst (L : Libm) (k : Nat) :
    ∀ (c : Canvas) (g : Gfx),
      (Canvas.repaint L k c g).1 =
        { c with shapes := c.shapes.map (fun s => (Shape.redraw L k s g).1) } := by
  induction k with
  | zero => intro c g; simp [Canvas.repaint, Shape.redraw]
  | succ k ih =>
    intro c g
    rw [Canvas.repaint, ih]
    simp only [Canvas.draw, drawShapes_fst, List.map_map]
    congr 1
    refine List.map_congr_left ?_
    intro s _
    simp only [Function.comp, shape_redraw_fst, shape_draw_fst, shape_segs_setPen,
      shape_pen_setPen, shape_setPen_setPen, ← stepN_add]
    congr 2
    ring

theorem mk3_stepN_any (m : Nat) (c : Fl_Color) (t : Int) (a : Nat) :
    ∃ d : Fl_Color,
      PenObj.stepN m (PenObj.colorful (ColorfulPen.mk3 c t (a % 3))) =
        PenObj.colorful (ColorfulPen.mk3 d t ((a + m) % 3)) := by
  cases m with
  | zero => exact ⟨c, rfl⟩
  | succ m => exact ⟨_, mk3_stepN m c t a⟩

theorem foldl_addShape (ss : List Shape) :
    ∀ c : Canvas, (ss.foldl Canvas.addShape c).shapes = c.shapes ++ ss := by
  induction ss with
  | nil => intro c; simp
  | cons s rest ih => intro c; simp [ih, Canvas.addShape]

theorem fresh_strokes_getElem (L : Libm) (s : Shape) (t : Int) (k : Nat) (g : Gfx) (j : Nat)
    (h : j < (s.segs L).length) :
    ((Shape.redraw L k (s.withFreshColorfulPen t) g).1.pen.strokes (s.segs L))[j]? =
      some (Drawn.line (s.segs L)[j].x1 (s.segs L)[j].y1 (s.segs L)[j].x2 (s.segs L)[j].y2
              (palette.getD ((k * (s.segs L).length + j) % 3) 0) FL_SOLID t) := by
  rw [shape_redraw_fst, shape_pen_setPen, Shape.withFreshColorfulPen, shape_pen_setPen,
    shape_segs_setPen]
  have hfresh : (PenObj.colorful ColorfulPen.new).setThickness t =
      PenObj.colorful (ColorfulPen.mk3 FL_RED t (0 % 3)) := rfl
  obtain ⟨d, hd⟩ := mk3_stepN_any (k * (s.segs L).length) FL_RED t 0
  rw [hfresh, hd, mk3_strokes_getElem _ d t _ j h, Nat.zero_add]

theorem shape_segs_length_mod (L : Libm) (s : Shape) : (s.segs L).length % 3 = 1 := by
  cases s with
  | line s => simp [Shape.segs, Line.segs]
  | rectangle s => simp [Shape.segs, Rectangle.edges]
  | circle s => simp [Shape.segs, Circle.segs, Circle.segments]

/-! ## C4: the canvas draws its shapes in the order they were added -/

/-- C4. `addShape` puts the shape at the end of the list and keeps the shapes already there,
so adding `s1..sn` to a new canvas gives the list `s1..sn`; `Canvas::draw` draws the shapes
of the list one after the other from the first to the last, and what it renders after the
axes is the concatenation, in list order, of the lines each shape draws with its own pen; a
canvas holding only `Line(Pen(black, thickness 1), 0,0,10,0)` renders, after the axes, exactly
one line, `(0,0)-(10,0)`, black, thickness 1. -/
theorem canvas_draws_in_insertion_order (L : Libm) (c : Canvas) (s : Shape) (ss : List Shape)
    (X Y W H : Int) (g : Gfx) :
    (c.addShape s).shapes = c.shapes ++ [s] ∧
    (ss.foldl Canvas.addShape (Canvas.new X Y W H)).shapes = ss ∧
    (Canvas.draw L c g).2 =
      c.shapes.foldl (fun g s => (s.draw L g).2) (Canvas.drawAxes c g) ∧
    (Canvas.draw L c g).2.out =
      (Canvas.drawAxes c g).out ++ c.shapes.flatMap (fun s => s.pen.strokes (s.segs L)) ∧
    (∀ x : Shape, (x.draw L g).2.out = g.out ++ x.pen.strokes (x.segs L)) ∧
    (Canvas.draw L
        ((Canvas.new X Y W H).addShape (Shape.line ⟨PenObj.base (Pen.new FL_BLACK), 0, 0, 10, 0⟩))
        g).2.out =
      (Canvas.drawAxes (Canvas.new X Y W H) g).out ++ [Drawn.line 0 0 10 0 FL_BLACK FL_SOLID 1] := by
  refine ⟨rfl, ?_, ?_, ?_, ?_, ?_⟩
  · rw [foldl_addShape]; rfl
  · simp only [Canvas.draw, drawShapes_snd]
  · simp only [Canvas.draw, drawShapes_out]
  · intro x; exact shape_draw_out L x g
  · simp only [Canvas.draw, drawShapes_out]
    rfl

/-! ## C10: repainting shifts the colours -/

/-- C10. `Canvas::draw` never resets a pen: after `k` repaints the canvas holds every shape as
`k` draws of its own leave it.  For a shape bound to a new `ColorfulPen` (thickness `t`) that
draws `n` segments, stroke `j` of repaint `k` (both 0-indexed) has colour
`palette[(k*n + j) mod 3]`; `n mod 3 = 1` for a line, a rectangle and a circle, so this is
`palette[(k + j) mod 3]`: each repaint starts one palette step later and gives every stroke a
colour different from the one it had in the repaint before; a rectangle is red, green, blue, red
on the first repaint and green, blue, red, green on the second; and repaint `k + 3` renders the
same as repaint `k`. -/
theorem repaint_shifts_colours (L : Libm) (c : Canvas) (s : Shape) (t : Int) (k : Nat)
    (g g1 : Gfx) (x y w h : Int) :
    (Canvas.repaint L k c g).1.shapes = c.shapes.map (fun a => (Shape.redraw L k a g).1) ∧
    (Canvas.draw L (Canvas.repaint L k c g).1 g1).2.out =
      (Canvas.drawAxes c g1).out ++
        c.shapes.flatMap (fun a => (Shape.redraw L k a g).1.pen.strokes (a.segs L)) ∧
    (∀ (j : Nat) (hj : j < (s.segs L).length),
      ((Shape.redraw L k (s.withFreshColorfulPen t) g).1.pen.strokes (s.segs L))[j]? =
        some (Drawn.line (s.segs L)[j].x1 (s.segs L)[j].y1 (s.segs L)[j].x2 (s.segs L)[j].y2
                ([FL_RED, FL_GREEN, FL_BLUE].getD ((k * (s.segs L).length + j) % 3) 0)
                FL_SOLID t)) ∧
    (s.segs L).length % 3 = 1 ∧
    (∀ j : Nat, (k * (s.segs L).length + j) % 3 = (k + j) % 3) ∧
    (∀ j : Nat, [FL_RED, FL_GREEN, FL_BLUE].getD ((k + 1 + j) % 3) 0 ≠
      [FL_RED, FL_GREEN, FL_BLUE].getD ((k + j) % 3) 0) ∧
    (Shape.redraw L 0 ((Shape.rectangle ⟨PenObj.base Pen.newDefault, x, y, w, h⟩).withFreshColorfulPen t)
        g).1.pen.strokes (Rectangle.edges ⟨PenObj.base Pen.newDefault, x, y, w, h⟩) =
      [Drawn.line x y (x + w) y FL_RED FL_SOLID t,
       Drawn.line (x + w) y (x + w) (y + h) FL_GREEN FL_SOLID t,
       Drawn.line (x + w) (y + h) x (y + h) FL_BLUE FL_SOLID t,
       Drawn.line x (y + h) x y FL_RED FL_SOLID t] ∧
    (Shape.redraw L 1 ((Shape.rectangle ⟨PenObj.base Pen.newDefault, x, y, w, h⟩).withFreshColorfulPen t)
        g).1.pen.strokes (Rectangle.edges ⟨PenObj.base Pen.newDefault, x, y, w, h⟩) =
      [Drawn.line x y (x + w) y FL_GREEN FL_SOLID t,
       Drawn.line (x + w) y (x + w) (y + h) FL_BLUE FL_SOLID t,
       Drawn.line (x + w) (y + h) x (y + h) FL_RED FL_SOLID t,
       Drawn.line x (y + h) x y FL_GREEN FL_SOLID t] ∧
    (Shape.redraw L (k + 3) (s.withFreshColorfulPen t) g).1.pen.strokes (s.segs L) =
      (Shape.redraw L k (s.withFreshColorfulPen t) g).1.pen.strokes (s.segs L) := by
  have hmod : ∀ j : Nat, (k * (s.segs L).length + j) % 3 = (k + j) % 3 := by
    intro j
    have h1 := shape_segs_length_mod L s
    rw [Nat.add_mod, Nat.mul_mod, h1, Nat.mul_one, Nat.mod_mod, ← Nat.add_mod]
  have hne : ∀ j : Nat, [FL_RED, FL_GREEN, FL_BLUE].getD ((k + 1 + j) % 3) 0 ≠
      [FL_RED, FL_GREEN, FL_BLUE].getD ((k + j) % 3) 0 := by
    intro j
    have h3 : (k + j) % 3 < 3 := Nat.mod_lt _ (by decide)
    have e : (k + 1 + j) % 3 = ((k + j) % 3 + 1) % 3 := by omega
    rw [e]
    generalize (k + j) % 3 = m at h3
    interval_cases m <;> decide
  refine ⟨?_, ?_, ?_, shape_segs_length_mod L s, hmod, hne, ?_, ?_, ?_⟩
  · rw [canvas_repaint_fst]
  · rw [canvas_repaint_fst]
    simp only [Canvas.draw, drawShapes_out, List.flatMap_map]
    congr 1
    refine List.flatMap_congr ?_
    intro a _
    simp only [shape_redraw_fst, shape_segs_setPen]
  · intro j hj
    exact fresh_strokes_getElem L s t k g j hj
  · simp [shape_redraw_fst, Shape.withFreshColorfulPen, shape_pen_setPen, PenObj.stepN,
      Rectangle.edges, PenObj.strokes, PenObj.setThickness, PenObj.step, PenObj.nextColor,
      ColorfulPen.new, PenObj.toPen, Pen.setThickness, Pen.new]
  · simp [shape_redraw_fst, Shape.withFreshColorfulPen, shape_pen_setPen, PenObj.stepN,
      Rectangle.edges, PenObj.strokes, PenObj.setThickness, PenObj.step, PenObj.nextColor,
      ColorfulPen.new, PenObj.toPen, Pen.setThickness, Pen.new, Shape.segs, shape_segs_setPen]
  · apply List.ext_getElem?
    intro j
    by_cases hj : j < (s.segs L).length
    · rw [fresh_strokes_getElem L s t (k + 3) g j hj, fresh_strokes_getElem L s t k g j hj]
      have e : ((k + 3) * (s.segs L).length + j) % 3 = (k * (s.segs L).length + j) % 3 := by
        rw [Nat.add_mul, Nat.add_assoc, Nat.add_comm (3 * _) j, ← Nat.add_assoc,
          Nat.add_mul_mod_self_left]
      rw [e]
    · have h1 : ((Shape.redraw L (k + 3) (s.withFreshColorfulPen t) g).1.pen.strokes
          (s.segs L)).length ≤ j := by rw [strokes_length]; omega
      have h2 : ((Shape.redraw L k (s.withFreshColorfulPen t) g).1.pen.strokes
          (s.segs L)).length ≤ j := by rw [strokes_length]; omega
      rw [List.getElem?_eq_none h1, List.getElem?_eq_none h2]

/-! ## Floating point: rounding is monotone and exact on representable values -/

theorem roundHalfEven_intCast (n : ℤ) : roundHalfEven (n : ℚ) = n := by
  simp [roundHalfEven]

theorem floor_le_roundHalfEven (x : ℚ) : ⌊x⌋ ≤ roundHalfEven x := by
  unfold roundHalfEven
  split_ifs <;> omega

theorem roundHalfEven_le_floor_succ (x : ℚ) : roundHalfEven x ≤ ⌊x⌋ + 1 := by
  unfold roundHalfEven
  split_ifs <;> omega

theorem roundHalfEven_mono {x y : ℚ} (h : x ≤ y) : roundHalfEven x ≤ roundHalfEven y := by
  have hf : ⌊x⌋ ≤ ⌊y⌋ := Int.floor_mono h
  rcases lt_or_eq_of_le hf with hlt | heq
  · calc roundHalfEven x ≤ ⌊x⌋ + 1 := roundHalfEven_le_floor_succ x
      _ ≤ ⌊y⌋ := hlt
      _ ≤ roundHalfEven y := floor_le_roundHalfEven y
  · have hx : roundHalfEven x = if x - ⌊y⌋ < 1 / 2 then ⌊y⌋
        else if 1 / 2 < x - ⌊y⌋ then ⌊y⌋ + 1
        else if ⌊y⌋ % 2 = 0 then ⌊y⌋ else ⌊y⌋ + 1 := by
      rw [← heq]; rfl
    rw [hx]
    unfold roundHalfEven
    split_ifs <;> first | omega | linarith

theorem ulpExp_lower {a : ℚ} (ha : 0 < a) : (2 : ℚ) ^ (ulpExp a + 52) ≤ a := by
  have h := Int.zpow_log_le_self (b := 2) (by norm_num) ha
  simpa [ulpExp] using h

theorem ulpExp_upper (a : ℚ) : a < (2 : ℚ) ^ (ulpExp a + 53) := by
  have h := Int.lt_zpow_succ_log_self (b := 2) (by norm_num) a
  have e : ulpExp a + 53 = Int.log 2 a + 1 := by unfold ulpExp; ring
  rw [e]; exact h

theorem ulpExp_mono {a b : ℚ} (ha : 0 < a) (h : a ≤ b) : ulpExp a ≤ ulpExp b := by
  unfold ulpExp
  have := Int.log_mono_right (b := 2) ha h
  omega

theorem two_zpow_pos (e : ℤ) : (0 : ℚ) < (2 : ℚ) ^ e := zpow_pos (by norm_num) e

theorem scaled_lower {a : ℚ} (ha : 0 < a) : (2 : ℚ) ^ (52 : ℕ) ≤ a / 2 ^ ulpExp a := by
  rw [le_div_iff₀ (two_zpow_pos _)]
  have h := ulpExp_lower ha
  rw [zpow_add₀ (by norm_num : (2 : ℚ) ≠ 0)] at h
  rw [mul_comm]
  exact_mod_cast h

theorem scaled_upper (a : ℚ) : a / 2 ^ ulpExp a < (2 : ℚ) ^ (53 : ℕ) := by
  rw [div_lt_iff₀ (two_zpow_pos _)]
  have h := ulpExp_upper a
  rw [zpow_add₀ (by norm_num : (2 : ℚ) ≠ 0)] at h
  rw [mul_comm]
  exact_mod_cast h

theorem rndAbs_lower {a : ℚ} (ha : 0 < a) : (2 : ℚ) ^ (ulpExp a + 52) ≤ rndAbs a := by
  unfold rndAbs
  have h1 : ((2 : ℤ) ^ (52 : ℕ) : ℤ) ≤ roundHalfEven (a / 2 ^ ulpExp a) := by
    have h := roundHalfEven_mono (scaled_lower ha)
    have e : ((2 : ℚ) ^ (52 : ℕ)) = (((2 : ℤ) ^ (52 : ℕ) : ℤ) : ℚ) := by norm_num
    rw [e, roundHalfEven_intCast] at h
    exact h
  have h2 : ((2 : ℚ) ^ (52 : ℕ)) ≤ (roundHalfEven (a / 2 ^ ulpExp a) : ℚ) := by
    exact_mod_cast h1
  rw [zpow_add₀ (by norm_num : (2 : ℚ) ≠ 0), mul_comm]
  have := mul_le_mul_of_nonneg_right h2 (le_of_lt (two_zpow_pos (ulpExp a)))
  exact_mod_cast this

theorem rndAbs_upper (a : ℚ) : rndAbs a ≤ (2 : ℚ) ^ (ulpExp a + 53) := by
  unfold rndAbs
  have h1 : roundHalfEven (a / 2 ^ ulpExp a) ≤ ((2 : ℤ) ^ (53 : ℕ) : ℤ) := by
    have h := roundHalfEven_mono (le_of_lt (scaled_upper a))
    have e : ((2 : ℚ) ^ (53 : ℕ)) = (((2 : ℤ) ^ (53 : ℕ) : ℤ) : ℚ) := by norm_num
    rw [e, roundHalfEven_intCast] at h
    exact h
  have h2 : (roundHalfEven (a / 2 ^ ulpExp a) : ℚ) ≤ ((2 : ℚ) ^ (53 : ℕ)) := by
    exact_mod_cast h1
  rw [zpow_add₀ (by norm_num : (2 : ℚ) ≠ 0), mul_comm ((2 : ℚ) ^ ulpExp a)]
  have := mul_le_mul_of_nonneg_right h2 (le_of_lt (two_zpow_pos (ulpExp a)))
  exact_mod_cast this

theorem rndAbs_pos {a : ℚ} (ha : 0 < a) : 0 < rndAbs a :=
  lt_of_lt_of_le (two_zpow_pos _) (rndAbs_lower ha)

theorem rndAbs_mono {a b : ℚ} (ha : 0 < a) (h : a ≤ b) : rndAbs a ≤ rndAbs b := by
  have hb : 0 < b := lt_of_lt_of_le ha h
  rcases lt_or_eq_of_le (ulpExp_mono ha h) with hlt | heq
  · calc rndAbs a ≤ (2 : ℚ) ^ (ulpExp a + 53) := rndAbs_upper a
      _ ≤ (2 : ℚ) ^ (ulpExp b + 52) := zpow_le_zpow_right₀ (by norm_num) (by omega)
      _ ≤ rndAbs b := rndAbs_lower hb
  · unfold rndAbs
    rw [heq]
    have h1 : a / 2 ^ ulpExp b ≤ b / 2 ^ ulpExp b :=
      div_le_div_of_nonneg_right h (le_of_lt (two_zpow_pos _))
    have h2 : (roundHalfEven (a / 2 ^ ulpExp b) : ℚ) ≤ (roundHalfEven (b / 2 ^ ulpExp b) : ℚ) := by
      exact_mod_cast roundHalfEven_mono h1
    exact mul_le_mul_of_nonneg_right h2 (le_of_lt (two_zpow_pos _))

theorem rnd64_neg (q : ℚ) : rnd64 (-q) = -rnd64 q := by
  unfold rnd64
  rcases lt_trichotomy q 0 with h | h | h
  · have h1 : ¬ (0 < q) := not_lt.mpr (le_of_lt h)
    have h2 : q ≠ 0 := ne_of_lt h
    have h3 : (0 : ℚ) < -q := by linarith
    have h4 : -q ≠ 0 := ne_of_gt h3
    simp [h1, h2, h3, h4]
  · simp [h]
  · have h1 : ¬ (0 < -q) := by linarith
    have h2 : q ≠ 0 := ne_of_gt h
    have h4 : -q ≠ 0 := by intro h5; apply h2; linarith
    simp [h1, h2, h, h4]

theorem rnd64_pos {q : ℚ} (h : 0 < q) : rnd64 q = rndAbs q := by
  unfold rnd64
  simp [h, ne_of_gt h]

theorem rnd64_zero : rnd64 0 = 0 := by simp [rnd64]

theorem rnd64_nonneg {q : ℚ} (h : 0 ≤ q) : 0 ≤ rnd64 q := by
  rcases lt_or_eq_of_le h with h1 | h1
  · rw [rnd64_pos h1]; exact le_of_lt (rndAbs_pos h1)
  · rw [← h1, rnd64_zero]

theorem rnd64_mono {a b : ℚ} (h : a ≤ b) : rnd64 a ≤ rnd64 b := by
  rcases lt_trichotomy 0 a with ha | ha | ha
  · rw [rnd64_pos ha, rnd64_pos (lt_of_lt_of_le ha h)]
    exact rndAbs_mono ha h
  · rw [← ha, rnd64_zero]
    exact rnd64_nonneg (by rw [ha]; exact h)
  · rcases lt_or_le b 0 with hb | hb
    · have h1 : rnd64 (-b) ≤ rnd64 (-a) := by
        rw [rnd64_pos (by linarith : (0 : ℚ) < -b), rnd64_pos (by linarith : (0 : ℚ) < -a)]
        exact rndAbs_mono (by linarith) (by linarith)
      rw [rnd64_neg, rnd64_neg] at h1
      linarith
    · have h1 : 0 ≤ rnd64 (-a) := rnd64_nonneg (by linarith)
      rw [rnd64_neg] at h1
      have h2 : 0 ≤ rnd64 b := rnd64_nonneg hb
      linarith

theorem rndAbs_exact (m : ℕ) (k : ℤ) (hm : 0 < m) (hm2 : m < 2 ^ 53) :
    rndAbs ((m : ℚ) * 2 ^ k) = (m : ℚ) * 2 ^ k := by
  have hmq : (0 : ℚ) < (m : ℚ) := by exact_mod_cast hm
  have ha : (0 : ℚ) < (m : ℚ) * 2 ^ k := mul_pos hmq (two_zpow_pos k)
  have hle : ulpExp ((m : ℚ) * 2 ^ k) ≤ k := by
    by_contra hcon
    have h1 : k + 53 ≤ ulpExp ((m : ℚ) * 2 ^ k) + 52 := by omega
    have h2 : (2 : ℚ) ^ (k + 53) ≤ (m : ℚ) * 2 ^ k :=
      le_trans (zpow_le_zpow_right₀ (by norm_num) h1) (ulpExp_lower ha)
    have h3 : (m : ℚ) < (2 : ℚ) ^ (53 : ℕ) := by exact_mod_cast hm2
    have h4 : (m : ℚ) * 2 ^ k < (2 : ℚ) ^ (53 : ℕ) * 2 ^ k :=
      mul_lt_mul_of_pos_right h3 (two_zpow_pos k)
    have h5 : (2 : ℚ) ^ (k + 53) = (2 : ℚ) ^ (53 : ℕ) * 2 ^ k := by
      rw [zpow_add₀ (by norm_num : (2 : ℚ) ≠ 0), mul_comm]
      norm_cast
    rw [h5] at h2
    linarith
  obtain ⟨n, hn⟩ : ∃ n : ℕ, k = ulpExp ((m : ℚ) * 2 ^ k) + n :=
    ⟨(k - ulpExp ((m : ℚ) * 2 ^ k)).toNat, by omega⟩
  have hk : (2 : ℚ) ^ k = 2 ^ ulpExp ((m : ℚ) * 2 ^ k) * 2 ^ n := by
    conv_lhs => rw [hn]
    rw [zpow_add₀ (by norm_num : (2 : ℚ) ≠ 0), zpow_natCast]
  have hne : (2 : ℚ) ^ ulpExp ((m : ℚ) * 2 ^ k) ≠ 0 := ne_of_gt (two_zpow_pos _)
  have hdiv : (m : ℚ) * 2 ^ k / 2 ^ ulpExp ((m : ℚ) * 2 ^ k) = (((m : ℤ) * 2 ^ n : ℤ) : ℚ) := by
    rw [div_eq_iff hne]
    conv_lhs => rw [hk]
    push_cast
    ring
  unfold rndAbs
  rw [hdiv, roundHalfEven_intCast]
  conv_rhs => rw [hk]
  push_cast
  ring

theorem rnd64_exact (z : ℤ) (k : ℤ) (hz : |z| < 2 ^ 53) :
    rnd64 ((z : ℚ) * 2 ^ k) = (z : ℚ) * 2 ^ k := by
  rcases lt_trichotomy z 0 with h | h | h
  · have h1 : rnd64 (-((z : ℚ) * 2 ^ k)) = -((z : ℚ) * 2 ^ k) := by
      have hm : (0 : ℕ) < (-z).toNat := by omega
      have hm2 : (-z).toNat < 2 ^ 53 := by
        have : |z| = -z := abs_of_neg h
        omega
      have hc : (((-z).toNat : ℕ) : ℚ) = -(z : ℚ) := by
        have : (((-z).toNat : ℕ) : ℤ) = -z := Int.toNat_of_nonneg (by omega)
        exact_mod_cast this
      have hpos : (0 : ℚ) < -((z : ℚ) * 2 ^ k) := by
        have : (z : ℚ) < 0 := by exact_mod_cast h
        have := mul_pos (neg_pos.mpr this) (two_zpow_pos k)
        linarith
      rw [rnd64_pos hpos]
      have := rndAbs_exact (-z).toNat k hm hm2
      rw [hc] at this
      rw [neg_mul] at this
      exact this
    rw [rnd64_neg] at h1
    linarith
  · rw [h]; simp [rnd64_zero]
  · have hm : (0 : ℕ) < z.toNat := by omega
    have hm2 : z.toNat < 2 ^ 53 := by
      have : |z| = z := abs_of_pos h
      omega
    have hc : ((z.toNat : ℕ) : ℚ) = (z : ℚ) := by
      have : ((z.toNat : ℕ) : ℤ) = z := Int.toNat_of_nonneg (by omega)
      exact_mod_cast this
    have hpos : (0 : ℚ) < (z : ℚ) * 2 ^ k := by
      have : (0 : ℚ) < (z : ℚ) := by exact_mod_cast h
      exact mul_pos this (two_zpow_pos k)
    rw [rnd64_pos hpos]
    have := rndAbs_exact z.toNat k hm hm2
    rw [hc] at this
    exact this

theorem rnd64_intCast (z : ℤ) (hz : |z| < 2 ^ 53) : rnd64 (z : ℚ) = (z : ℚ) := by
  have := rnd64_exact z 0 hz
  simpa using this

theorem truncToInt_intCast (z : ℤ) : truncToInt (z : ℚ) = z := by
  unfold truncToInt
  split_ifs <;> simp

theorem truncToInt_neg (q : ℚ) : truncToInt (-q) = -truncToInt q := by
  unfold truncToInt
  rcases lt_trichotomy q 0 with h | h | h
  · have h1 : ¬ (0 ≤ q) := not_le.mpr h
    have h2 : (0 : ℚ) ≤ -q := by linarith
    simp only [h1, h2, if_true, if_false, Int.floor_neg]
  · simp [h]
  · have h1 : (0 : ℚ) ≤ q := le_of_lt h
    have h2 : ¬ ((0 : ℚ) ≤ -q) := by linarith
    simp only [h1, h2, if_true, if_false, Int.ceil_neg]

theorem truncToInt_of_mem_Ico {q : ℚ} {n : ℤ} (hn : 0 ≤ n) (h1 : (n : ℚ) ≤ q)
    (h2 : q < (n : ℚ) + 1) : truncToInt q = n := by
  unfold truncToInt
  have h0 : (0 : ℚ) ≤ q := le_trans (by exact_mod_cast hn) h1
  rw [if_pos h0]
  exact Int.floor_eq_iff.mpr ⟨h1, h2⟩

theorem truncToInt_of_abs_lt_one {q : ℚ} (h : |q| < 1) : truncToInt q = 0 := by
  rw [abs_lt] at h
  rcases le_or_lt 0 q with h0 | h0
  · exact truncToInt_of_mem_Ico (le_refl 0) (by simpa using h0) (by simpa using h.2)
  · have h3 : truncToInt (-q) = 0 :=
      truncToInt_of_mem_Ico (le_refl 0) (by simp; linarith) (by simp; linarith)
    rw [truncToInt_neg] at h3
    omega

/-! ## Circle: the polygon -/

theorem circle_segs_length (L : Libm) (s : Circle) : (s.segs L).length = 100 := by
  simp [Circle.segs, Circle.segments]

theorem circle_segs_getElem? (L : Libm) (s : Circle) (k : Nat) (hk : k < 100) :
    (s.segs L)[k]? = some (Circle.chord L s k) := by
  simp [Circle.segs, Circle.segments, List.getElem?_map, List.getElem?_range hk]

theorem connected_map_range (f : Nat → Seg) (hf : ∀ k, (f k).stop = (f (k + 1)).start)
    (n : Nat) : ∀ i : Nat, connected ((List.range' i n).map f) = true := by
  induction n with
  | zero => intro i; rfl
  | succ n ih =>
    intro i
    cases n with
    | zero => rfl
    | succ n =>
      have h := ih (i + 1)
      rw [List.range'_succ] at h ⊢
      rw [List.range'_succ]
      simp only [List.map_cons, connected, Bool.and_eq_true, decide_eq_true_eq] at h ⊢
      exact ⟨hf i, h⟩

theorem circle_segs_connected (L : Libm) (s : Circle) : connected (s.segs L) = true := by
  have h := connected_map_range (Circle.chord L s) (fun k => rfl) Circle.segments 0
  rw [← List.range_eq_range'] at h
  exact h

theorem circle_last_vertex (L : Libm) (pen : PenObj) (cx cy r : Int)
    (hr : -2 ^ 31 ≤ r ∧ r < 2 ^ 31) (hcos : L.cos (Circle.angle 100) = 1)
    (hsin : |L.sin (Circle.angle 100)| ≤ 1 / 2 ^ 32) :
    Circle.vertex L ⟨pen, cx, cy, r⟩ 100 = (cx + r, cy) := by
  have hx : truncToInt (rnd64 ((r : ℚ) * L.cos (Circle.angle 100))) = r := by
    rw [hcos, mul_one, rnd64_intCast r (by rw [abs_lt]; constructor <;> omega),
      truncToInt_intCast]
  have hrq : |(r : ℚ)| ≤ 2 ^ 31 := by
    rw [abs_le]
    constructor
    · have : (-2 ^ 31 : ℤ) ≤ r := hr.1
      exact_mod_cast this
    · have : r ≤ (2 ^ 31 : ℤ) := by omega
      exact_mod_cast this
  have hprod : |(r : ℚ) * L.sin (Circle.angle 100)| ≤ 1 / 2 := by
    rw [abs_mul]
    calc |(r : ℚ)| * |L.sin (Circle.angle 100)| ≤ 2 ^ 31 * (1 / 2 ^ 32) :=
          mul_le_mul hrq hsin (abs_nonneg _) (by norm_num)
      _ = 1 / 2 := by norm_num
  have hhalf : rnd64 (1 / 2 : ℚ) = 1 / 2 := by
    have := rnd64_exact 1 (-1) (by norm_num)
    norm_num at this
    exact this
  have hnhalf : rnd64 (-(1 / 2) : ℚ) = -(1 / 2) := by rw [rnd64_neg, hhalf]
  rw [abs_le] at hprod
  have hy : truncToInt (rnd64 ((r : ℚ) * L.sin (Circle.angle 100))) = 0 := by
    apply truncToInt_of_abs_lt_one
    rw [abs_lt]
    have h1 := rnd64_mono hprod.1
    have h2 := rnd64_mono hprod.2
    rw [hnhalf] at h1
    rw [hhalf] at h2
    constructor <;> linarith
  show (Circle.newX L ⟨pen, cx, cy, r⟩ 100, Circle.newY L ⟨pen, cx, cy, r⟩ 100) = (cx + r, cy)
  simp only [Circle.newX, Circle.newY, hx, hy, add_zero]

/-! ## C3: a circle is a closed polygon of 100 segments -/

/-- C3. For every circle whose radius is an `int` and every pen, on a math library that returns
`cos = 1.0` and a sine below `2^-32` in absolute value at the last angle `100 * angleStep`
(the binary64 neighbour of `2π`), `Circle::draw` is exactly 100 `drawLine` calls and renders
100 lines; the first starts at `(cx + radius, cy)`, every later one starts where the one
before it ends, and the 100th ends at `(cx + radius, cy)`. -/
theorem circle_draw_closed_polygon (L : Libm) (pen : PenObj) (cx cy r : Int) (g : Gfx)
    (hr : -2 ^ 31 ≤ r ∧ r < 2 ^ 31) (hcos : L.cos (Circle.angle 100) = 1)
    (hsin : |L.sin (Circle.angle 100)| ≤ 1 / 2 ^ 32) :
    (Circle.draw L ⟨pen, cx, cy, r⟩ g).2 =
      (pen.drawLines (Circle.segs L ⟨pen, cx, cy, r⟩) g).2 ∧
    (Circle.draw L ⟨pen, cx, cy, r⟩ g).2.out =
      g.out ++ pen.strokes (Circle.segs L ⟨pen, cx, cy, r⟩) ∧
    (pen.strokes (Circle.segs L ⟨pen, cx, cy, r⟩)).map Drawn.seg =
      (Circle.segs L ⟨pen, cx, cy, r⟩).map some ∧
    (Circle.segs L ⟨pen, cx, cy, r⟩).length = 100 ∧
    ((Circle.segs L ⟨pen, cx, cy, r⟩)[0]?).map Seg.start = some (cx + r, cy) ∧
    connected (Circle.segs L ⟨pen, cx, cy, r⟩) = true ∧
    ((Circle.segs L ⟨pen, cx, cy, r⟩)[99]?).map Seg.stop = some (cx + r, cy) := by
  refine ⟨?_, ?_, strokes_seg _ _, circle_segs_length _ _, ?_, circle_segs_connected _ _, ?_⟩
  · rw [circle_draw_eq]
  · rw [circle_draw_eq, (drawLines_eq _ _ _).2]
  · rw [circle_segs_getElem? _ _ 0 (by omega)]; rfl
  · rw [circle_segs_getElem? _ _ 99 (by omega)]
    have h := circle_last_vertex L pen cx cy r hr hcos hsin
    simp only [Option.map_some', Seg.stop, Circle.chord, h]

/-- C3 (witness): `Circle(100, 100, 50)` with a plain black pen on `sampleLibm`. -/
theorem circle_draw_closed_polygon_witness :
    sampleLibm.cos (Circle.angle 100) = 1 ∧
    |sampleLibm.sin (Circle.angle 100)| ≤ 1 / 2 ^ 32 ∧
    ((Circle.segs sampleLibm ⟨PenObj.base Pen.newDefault, 100, 100, 50⟩)[0]?).map Seg.start
      = some (150, 100) ∧
    ((Circle.segs sampleLibm ⟨PenObj.base Pen.newDefault, 100, 100, 50⟩)[99]?).map Seg.stop
      = some (150, 100) :=
  have hc : sampleLibm.cos (Circle.angle 100) = 1 := by simp [sampleLibm]
  have hs : |sampleLibm.sin (Circle.angle 100)| ≤ 1 / 2 ^ 32 := by
    simp only [sampleLibm, if_true]
    rw [abs_of_nonneg (by norm_num)]
    norm_num
  have h := circle_draw_closed_polygon sampleLibm (PenObj.base Pen.newDefault) 100 100 50
    ⟨FL_BLACK, FL_SOLID, 0, []⟩ (by norm_num) hc hs
  ⟨hc, hs, h.2.2.2.2.1, h.2.2.2.2.2.2⟩

/-! ## Circle: the first vertex -/

theorem rnd64_mem_Icc {lo hi q : ℚ} (hlo : rnd64 lo = lo) (hhi : rnd64 hi = hi)
    (h1 : lo ≤ q) (h2 : q ≤ hi) : lo ≤ rnd64 q ∧ rnd64 q ≤ hi := by
  constructor
  · calc lo = rnd64 lo := hlo.symm
      _ ≤ rnd64 q := rnd64_mono h1
  · calc rnd64 q ≤ rnd64 hi := rnd64_mono h2
      _ = hi := hhi

theorem rnd64_dyadic (z : ℤ) (k : ℤ) (q : ℚ) (hz : |z| < 2 ^ 53) (hq : q = (z : ℚ) * 2 ^ k) :
    rnd64 q = q := by
  rw [hq]; exact rnd64_exact z k hz

theorem angle_one_bounds : (1 / 16 : ℚ) ≤ Circle.angle 1 ∧ Circle.angle 1 ≤ 129 / 2048 := by
  have hlo : rnd64 (1 / 16 : ℚ) = 1 / 16 :=
    rnd64_dyadic 1 (-4) _ (by norm_num) (by norm_num)
  have hhi : rnd64 (129 / 2048 : ℚ) = 129 / 2048 :=
    rnd64_dyadic 129 (-11) _ (by norm_num) (by norm_num)
  have h2pi : rnd64 (2 * M_PI) = 2 * M_PI :=
    rnd64_dyadic 884279719003555 (-47) _ (by norm_num) (by norm_num [M_PI])
  have hstep : (1 / 16 : ℚ) ≤ Circle.angleStep ∧ Circle.angleStep ≤ 129 / 2048 := by
    unfold Circle.angleStep
    rw [h2pi]
    apply rnd64_mem_Icc hlo hhi <;> norm_num [M_PI, Circle.segments]
  unfold Circle.angle
  apply rnd64_mem_Icc hlo hhi
  · simpa using hstep.1
  · simpa using hstep.2

theorem first_vertex_offsets (L : Libm)
    (hcos : |((L.cos (Circle.angle 1) : ℚ) : ℝ) - Real.cos ((Circle.angle 1 : ℚ) : ℝ)| ≤ 1 / 1000)
    (hsin : |((L.sin (Circle.angle 1) : ℚ) : ℝ) - Real.sin ((Circle.angle 1 : ℚ) : ℝ)| ≤ 1 / 1000) :
    truncToInt (rnd64 (50 * L.cos (Circle.angle 1))) = 49 ∧
    truncToInt (rnd64 (50 * L.sin (Circle.angle 1))) = 3 ∧
    round (rnd64 (50 * L.cos (Circle.angle 1))) = 50 := by
  obtain ⟨hlo, hhi⟩ := angle_one_bounds
  have hloR : (1 / 16 : ℝ) ≤ ((Circle.angle 1 : ℚ) : ℝ) := by
    have h := (Rat.cast_le (K := ℝ)).mpr hlo
    push_cast at h
    exact h
  have hhiR : ((Circle.angle 1 : ℚ) : ℝ) ≤ (129 / 2048 : ℝ) := by
    have h := (Rat.cast_le (K := ℝ)).mpr hhi
    push_cast at h
    exact h
  generalize ((Circle.angle 1 : ℚ) : ℝ) = x at hcos hsin hloR hhiR
  generalize L.cos (Circle.angle 1) = c at hcos ⊢
  generalize L.sin (Circle.angle 1) = s at hsin ⊢
  have hx0 : 0 ≤ x := by linarith
  have habs : |x| ≤ 1 := by rw [abs_le]; constructor <;> linarith
  have hcb := Real.cos_bound habs
  have hsb := Real.sin_bound habs
  rw [abs_of_nonneg hx0] at hcb hsb
  have hx2lo : (1 / 256 : ℝ) ≤ x ^ 2 := by nlinarith
  have hx2hi : x ^ 2 ≤ (1 / 250 : ℝ) := by nlinarith
  have hx3hi : x ^ 3 ≤ (1 / 250 : ℝ) := by nlinarith
  have hx3lo : 0 ≤ x ^ 3 := by positivity
  have hx4hi : x ^ 4 ≤ (1 / 250 : ℝ) := by nlinarith
  have hx4lo : 0 ≤ x ^ 4 := by positivity
  rw [abs_le] at hcos hsin hcb hsb
  have hc1 : (99 / 100 : ℝ) ≤ (c : ℝ) := by linarith [hcos.1, hcb.1]
  have hc2 : (c : ℝ) ≤ (1599 / 1600 : ℝ) := by linarith [hcos.2, hcb.2]
  have hs1 : (3 / 50 : ℝ) ≤ (s : ℝ) := by linarith [hsin.1, hsb.1]
  have hs2 : (s : ℝ) ≤ (7 / 100 : ℝ) := by linarith [hsin.2, hsb.2]
  have hc1q : (99 / 100 : ℚ) ≤ c := (Rat.cast_le (K := ℝ)).mp (by push_cast; exact hc1)
  have hc2q : c ≤ (1599 / 1600 : ℚ) := (Rat.cast_le (K := ℝ)).mp (by push_cast; exact hc2)
  have hs1q : (3 / 50 : ℚ) ≤ s := (Rat.cast_le (K := ℝ)).mp (by push_cast; exact hs1)
  have hs2q : s ≤ (7 / 100 : ℚ) := (Rat.cast_le (K := ℝ)).mp (by push_cast; exact hs2)
  have e49 : rnd64 (49 : ℚ) = 49 := rnd64_dyadic 49 0 _ (by norm_num) (by norm_num)
  have e99 : rnd64 (99 / 2 : ℚ) = 99 / 2 := rnd64_dyadic 99 (-1) _ (by norm_num) (by norm_num)
  have e1599 : rnd64 (1599 / 32 : ℚ) = 1599 / 32 :=
    rnd64_dyadic 1599 (-5) _ (by norm_num) (by norm_num)
  have e3 : rnd64 (3 : ℚ) = 3 := rnd64_dyadic 3 0 _ (by norm_num) (by norm_num)
  have e72 : rnd64 (7 / 2 : ℚ) = 7 / 2 := rnd64_dyadic 7 (-1) _ (by norm_num) (by norm_num)
  have hC := rnd64_mem_Icc e49 e1599 (by linarith : (49 : ℚ) ≤ 50 * c) (by linarith)
  have hC2 := rnd64_mem_Icc e99 e1599 (by linarith : (99 / 2 : ℚ) ≤ 50 * c) (by linarith)
  have hS := rnd64_mem_Icc e3 e72 (by linarith : (3 : ℚ) ≤ 50 * s) (by linarith)
  generalize rnd64 (50 * c) = v at hC hC2 ⊢
  generalize rnd64 (50 * s) = u at hS ⊢
  refine ⟨?_, ?_, ?_⟩
  · have h1 : ((49 : ℤ) : ℚ) ≤ v := by push_cast; exact hC.1
    have h2 : v < ((49 : ℤ) : ℚ) + 1 := by push_cast; linarith [hC.2]
    exact truncToInt_of_mem_Ico (by norm_num) h1 h2
  · have h1 : ((3 : ℤ) : ℚ) ≤ u := by push_cast; exact hS.1
    have h2 : u < ((3 : ℤ) : ℚ) + 1 := by push_cast; linarith [hS.2]
    exact truncToInt_of_mem_Ico (by norm_num) h1 h2
  · have e50 : ((50 : ℤ) : ℚ) = 50 := by norm_num
    have h1 := hC2.1
    have h2 := hC2.2
    rw [round_eq, Int.floor_eq_iff, e50]
    constructor
    · linarith only [h1]
    · linarith only [h2]

theorem taylorLibm_accurate :
    |((taylorLibm.cos (Circle.angle 1) : ℚ) : ℝ) - Real.cos ((Circle.angle 1 : ℚ) : ℝ)|
      ≤ 1 / 1000 ∧
    |((taylorLibm.sin (Circle.angle 1) : ℚ) : ℝ) - Real.sin ((Circle.angle 1 : ℚ) : ℝ)|
      ≤ 1 / 1000 := by
  obtain ⟨hlo, hhi⟩ := angle_one_bounds
  have hloR : (1 / 16 : ℝ) ≤ ((Circle.angle 1 : ℚ) : ℝ) := by
    have h := (Rat.cast_le (K := ℝ)).mpr hlo
    push_cast at h
    exact h
  have hhiR : ((Circle.angle 1 : ℚ) : ℝ) ≤ (129 / 2048 : ℝ) := by
    have h := (Rat.cast_le (K := ℝ)).mpr hhi
    push_cast at h
    exact h
  simp only [taylorLibm]
  push_cast
  generalize ((Circle.angle 1 : ℚ) : ℝ) = x at hloR hhiR ⊢
  have hx0 : 0 ≤ x := by linarith
  have habs : |x| ≤ 1 := by rw [abs_le]; constructor <;> linarith
  have hcb := Real.cos_bound habs
  have hsb := Real.sin_bound habs
  rw [abs_of_nonneg hx0] at hcb hsb
  have hx2hi : x ^ 2 ≤ (1 / 250 : ℝ) := by nlinarith
  have hx4hi : x ^ 4 ≤ (1 / 250 : ℝ) := by nlinarith
  rw [abs_sub_comm] at hcb hsb
  constructor
  · linarith
  · linarith

theorem strokes_head (p : PenObj) (segs : List Seg) (s : Seg) (h : segs[0]? = some s) :
    (p.strokes segs)[0]? =
      some (Drawn.line s.x1 s.y1 s.x2 s.y2 p.nextColor FL_SOLID p.toPen.thickness) := by
  cases segs with
  | nil => simp at h
  | cons a rest =>
    simp only [List.getElem?_cons_zero, Option.some.injEq] at h
    simp [PenObj.strokes, h]

theorem first_chord (L : Libm) (pen : PenObj)
    (hcos : |((L.cos (Circle.angle 1) : ℚ) : ℝ) - Real.cos ((Circle.angle 1 : ℚ) : ℝ)| ≤ 1 / 1000)
    (hsin : |((L.sin (Circle.angle 1) : ℚ) : ℝ) - Real.sin ((Circle.angle 1 : ℚ) : ℝ)| ≤ 1 / 1000) :
    (Circle.segs L ⟨pen, 100, 100, 50⟩)[0]? = some ⟨150, 100, 149, 103⟩ ∧
    (Circle.segs L ⟨pen, 100, 100, -50⟩)[0]? = some ⟨50, 100, 51, 97⟩ := by
  obtain ⟨h1, h2, _⟩ := first_vertex_offsets L hcos hsin
  have e1 : (((50 : ℤ) : ℚ)) = 50 := by norm_num
  have e2 : (((-50 : ℤ) : ℚ)) = -50 := by norm_num
  constructor
  · rw [circle_segs_getElem? _ _ 0 (by omega)]
    simp only [Circle.chord, Circle.vertex, Circle.newX, Circle.newY, e1, h1, h2]
    rfl
  · rw [circle_segs_getElem? _ _ 0 (by omega)]
    simp only [Circle.chord, Circle.vertex, Circle.newX, Circle.newY, e2, neg_mul, rnd64_neg,
      truncToInt_neg, h1, h2]
    rfl

/-! ## C5: vertices are truncated toward zero -/

/-- C5. Vertex `i` (`i = 1..100`) of `Circle::draw` is
`(cx + trunc(radius * cos(angle i)), cy + trunc(radius * sin(angle i)))` with
`angle i = i * (2 * M_PI / 100)` in binary64 arithmetic and `trunc` the truncation toward zero
(floor of a non-negative value, ceiling of a non-positive one), and stroke `k` runs from
vertex `k` to vertex `k + 1`.  On a math library whose cosine and sine at `angle 1` are within
`1/1000` of the real cosine and sine, `Circle(100, 100, 50)` starts with the segment
`(150,100)-(149,103)`: the product `50 * cos` truncates to 49, where rounding to the nearest
integer would give 50. -/
theorem circle_vertices_truncate_toward_zero (L : Libm) (pen : PenObj) (cx cy r : Int) (g : Gfx)
    (hcos : |((L.cos (Circle.angle 1) : ℚ) : ℝ) - Real.cos ((Circle.angle 1 : ℚ) : ℝ)| ≤ 1 / 1000)
    (hsin : |((L.sin (Circle.angle 1) : ℚ) : ℝ) - Real.sin ((Circle.angle 1 : ℚ) : ℝ)| ≤ 1 / 1000) :
    (∀ i : Nat, 1 ≤ i →
      Circle.vertex L ⟨pen, cx, cy, r⟩ i =
        (cx + truncToInt (rnd64 ((r : ℚ) * L.cos (Circle.angle i))),
         cy + truncToInt (rnd64 ((r : ℚ) * L.sin (Circle.angle i))))) ∧
    (∀ i : Nat, Circle.angle i = rnd64 ((i : ℚ) * rnd64 (rnd64 (2 * M_PI) / 100))) ∧
    (∀ k : Nat, k < 100 →
      (Circle.segs L ⟨pen, cx, cy, r⟩)[k]? =
        some ⟨(Circle.vertex L ⟨pen, cx, cy, r⟩ k).1, (Circle.vertex L ⟨pen, cx, cy, r⟩ k).2,
              (Circle.vertex L ⟨pen, cx, cy, r⟩ (k + 1)).1,
              (Circle.vertex L ⟨pen, cx, cy, r⟩ (k + 1)).2⟩) ∧
    (Circle.draw L ⟨pen, cx, cy, r⟩ g).2.out =
      g.out ++ pen.strokes (Circle.segs L ⟨pen, cx, cy, r⟩) ∧
    (∀ q : ℚ, 0 ≤ q → truncToInt q = ⌊q⌋) ∧
    (∀ q : ℚ, q ≤ 0 → truncToInt q = ⌈q⌉) ∧
    (Circle.segs L ⟨pen, 100, 100, 50⟩)[0]? = some ⟨150, 100, 149, 103⟩ ∧
    (Circle.draw L ⟨pen, 100, 100, 50⟩ g).2.out[g.out.length]? =
      some (Drawn.line 150 100 149 103 pen.nextColor FL_SOLID pen.toPen.thickness) ∧
    truncToInt (rnd64 (50 * L.cos (Circle.angle 1))) = 49 ∧
    round (rnd64 (50 * L.cos (Circle.angle 1))) = 50 := by
  have hv := first_vertex_offsets L hcos hsin
  have hch := (first_chord L pen hcos hsin).1
  refine ⟨?_, ?_, ?_, ?_, ?_, ?_, hch, ?_, hv.1, hv.2.2⟩
  · intro i hi
    obtain ⟨j, rfl⟩ : ∃ j, i = j + 1 := ⟨i - 1, by omega⟩
    rfl
  · intro i
    simp [Circle.angle, Circle.angleStep, Circle.segments]
  · intro k hk
    exact circle_segs_getElem? L _ k hk
  · rw [circle_draw_eq, (drawLines_eq _ _ _).2]
  · intro q hq
    simp [truncToInt, hq]
  · intro q hq
    rcases lt_or_eq_of_le hq with h | h
    · simp [truncToInt, not_le.mpr h]
    · simp [truncToInt, h]
  · rw [circle_draw_eq, (drawLines_eq _ _ _).2,
      List.getElem?_append_right (Nat.le_refl _), Nat.sub_self]
    exact strokes_head pen _ _ hch

/-- C5 (witness): `Circle(100, 100, 50)` with a plain black pen on `taylorLibm`. -/
theorem circle_vertices_truncate_witness :
    |((taylorLibm.cos (Circle.angle 1) : ℚ) : ℝ) - Real.cos ((Circle.angle 1 : ℚ) : ℝ)|
      ≤ 1 / 1000 ∧
    |((taylorLibm.sin (Circle.angle 1) : ℚ) : ℝ) - Real.sin ((Circle.angle 1 : ℚ) : ℝ)|
      ≤ 1 / 1000 ∧
    (Circle.segs taylorLibm ⟨PenObj.base Pen.newDefault, 100, 100, 50⟩)[0]?
      = some ⟨150, 100, 149, 103⟩ :=
  have h := circle_vertices_truncate_toward_zero taylorLibm (PenObj.base Pen.newDefault)
    100 100 50 ⟨FL_BLACK, FL_SOLID, 0, []⟩ taylorLibm_accurate.1 taylorLibm_accurate.2
  ⟨taylorLibm_accurate.1, taylorLibm_accurate.2, h.2.2.2.2.2.2.1⟩

/-! ## C6: degenerate geometry -/

theorem circle_zero_radius_chord (L : Libm) (pen : PenObj) (cx cy : Int) (k : Nat) :
    Circle.chord L ⟨pen, cx, cy, 0⟩ k = ⟨cx, cy, cx, cy⟩ := by
  have hv : ∀ i : Nat, Circle.vertex L ⟨pen, cx, cy, 0⟩ i = (cx, cy) := by
    intro i
    cases i with
    | zero => simp [Circle.vertex]
    | succ i => simp [Circle.vertex, Circle.newX, Circle.newY, rnd64_zero, truncToInt]
  simp [Circle.chord, hv]

theorem circle_vertex_neg (L : Libm) (pen : PenObj) (cx cy r : Int) (i : Nat) :
    Circle.vertex L ⟨pen, cx, cy, -r⟩ i =
      (2 * cx - (Circle.vertex L ⟨pen, cx, cy, r⟩ i).1,
       2 * cy - (Circle.vertex L ⟨pen, cx, cy, r⟩ i).2) := by
  cases i with
  | zero =>
    simp only [Circle.vertex, Prod.mk.injEq]
    constructor <;> omega
  | succ i =>
    simp only [Circle.vertex, Circle.newX, Circle.newY, Int.cast_neg, neg_mul, rnd64_neg,
      truncToInt_neg, Prod.mk.injEq]
    constructor <;> omega

/-- C6 (as stated, refuted). A circle with a negative radius is not rendered as a point:
`Circle(100, 100, -50)` drawn with a plain black pen on `taylorLibm` (and on every math library
within `1/1000` of the cosine and the sine at the first angle, see `first_chord`) starts with
the line `(50,100)-(51,97)`, which has two different end points. -/
theorem negative_radius_is_not_a_point :
    (Circle.draw taylorLibm ⟨PenObj.base Pen.newDefault, 100, 100, -50⟩
        ⟨FL_BLACK, FL_SOLID, 0, []⟩).2.out[0]? =
      some (Drawn.line 50 100 51 97 FL_BLACK FL_SOLID 1) ∧
    Seg.start ⟨50, 100, 51, 97⟩ ≠ Seg.stop ⟨50, 100, 51, 97⟩ ∧
    ∀ px py : Int, Seg.isPoint px py ⟨50, 100, 51, 97⟩ = false := by
  refine ⟨?_, by decide, ?_⟩
  · rw [circle_draw_eq, (drawLines_eq _ _ _).2]
    have h := (first_chord taylorLibm (PenObj.base Pen.newDefault) taylorLibm_accurate.1
      taylorLibm_accurate.2).2
    exact strokes_head _ _ _ h
  · intro px py
    simp only [Seg.isPoint, Bool.and_eq_false_iff, decide_eq_false_iff_not]
    omega

/-- C6 (amended). `draw` has no failure path: for every shape it returns, having rendered
after everything rendered before the lines of its 1, 4 or 100 `drawLine` calls.  A rectangle
with width 0 and height 0 renders four zero-length segments at `(x, y)`, and a circle with
radius 0 renders 100 zero-length segments at `(cx, cy)`.  A circle with a negative radius is
not degenerate: every vertex of `Circle(cx, cy, -r)` is the mirror image through `(cx, cy)` of
the same vertex of `Circle(cx, cy, r)`. -/
theorem degenerate_geometry_renders (L : Libm) (s : Shape) (pen : PenObj)
    (x y cx cy r : Int) (i : Nat) (g : Gfx) :
    (s.draw L g).2.out = g.out ++ s.pen.strokes (s.segs L) ∧
    ((s.segs L).length = 1 ∨ (s.segs L).length = 4 ∨ (s.segs L).length = 100) ∧
    (Rectangle.draw ⟨pen, x, y, 0, 0⟩ g).2.out =
      g.out ++ pen.strokes (List.replicate 4 ⟨x, y, x, y⟩) ∧
    (pen.strokes (List.replicate 4 ⟨x, y, x, y⟩)).map Drawn.seg =
      List.replicate 4 (some ⟨x, y, x, y⟩) ∧
    (Circle.draw L ⟨pen, cx, cy, 0⟩ g).2.out =
      g.out ++ pen.strokes (List.replicate 100 ⟨cx, cy, cx, cy⟩) ∧
    (pen.strokes (List.replicate 100 ⟨cx, cy, cx, cy⟩)).map Drawn.seg =
      List.replicate 100 (some ⟨cx, cy, cx, cy⟩) ∧
    Seg.isPoint x y ⟨x, y, x, y⟩ = true ∧
    Circle.vertex L ⟨pen, cx, cy, -r⟩ i =
      (2 * cx - (Circle.vertex L ⟨pen, cx, cy, r⟩ i).1,
       2 * cy - (Circle.vertex L ⟨pen, cx, cy, r⟩ i).2) := by
  refine ⟨shape_draw_out L s g, ?_, ?_, ?_, ?_, ?_, ?_, circle_vertex_neg L pen cx cy r i⟩
  · cases s with
    | line s => left; simp [Shape.segs, Line.segs]
    | rectangle s => right; left; simp [Shape.segs, Rectangle.edges]
    | circle s => right; right; exact circle_segs_length L s
  · rw [rectangle_draw_eq, (drawLines_eq _ _ _).2]
    simp [Rectangle.edges, List.replicate]
  · rw [strokes_seg, List.map_replicate]
  · rw [circle_draw_eq, (drawLines_eq _ _ _).2]
    have e : Circle.segs L ⟨pen, cx, cy, 0⟩ = List.replicate 100 ⟨cx, cy, cx, cy⟩ := by
      unfold Circle.segs
      have hf : Circle.chord L ⟨pen, cx, cy, 0⟩ = fun _ => (⟨cx, cy, cx, cy⟩ : Seg) := by
        funext k; exact circle_zero_radius_chord L pen cx cy k
      rw [hf, List.map_const', List.length_range]
      rfl
    rw [e]
  · rw [strokes_seg, List.map_replicate]
  · simp [Seg.isPoint]

/-! ## Canvas: the two axis loops -/

theorem yAxisLoop_eq (x y h : Int) (n : Nat) :
    ∀ (i : Int) (g : Gfx), (∀ m : Nat, m < n → i + 50 * (m : Int) ≤ h) →
      h < i + 50 * (n : Int) →
      Canvas.yAxisLoop x y h i g =
        { g with out := (g.out ++ (List.range n).flatMap (fun m =>
            Canvas.yTick x y h (i + 50 * (m : Int)) g.color g.lineStyle g.lineWidth)) } := by
  induction n with
  | zero =>
    intro i g _ hlt
    have hi : ¬ (i ≤ h) := by simpa using hlt
    rw [Canvas.yAxisLoop, if_neg hi]
    simp
  | succ n ih =>
    intro i g hle hlt
    have hi : i ≤ h := by simpa using hle 0 (Nat.succ_pos n)
    rw [Canvas.yAxisLoop, if_pos hi]
    simp only []
    rw [ih (i + 50) _ (fun m hm => by have := hle (m + 1) (by omega); push_cast at this; omega)
      (by push_cast at hlt; omega)]
    rw [List.range_succ_eq_map, List.flatMap_cons, List.flatMap_map]
    simp only [fl_line, fl_draw, Canvas.yTick, List.append_assoc, Nat.cast_zero, mul_zero,
      add_zero, List.cons_append, List.nil_append, Nat.succ_eq_add_one, Nat.cast_add,
      Nat.cast_one]
    have e : ∀ m : Int, i + 50 + 50 * m = i + 50 * (m + 1) := fun m => by ring
    simp only [e]

theorem xAxisLoop_eq (x y h : Int) (n : Nat) :
    ∀ (i : Int) (g : Gfx), (∀ m : Nat, m < n → i + 50 * (m : Int) ≤ 750) →
      750 < i + 50 * (n : Int) →
      Canvas.xAxisLoop x y h i g =
        { g with out := (g.out ++ (List.range n).flatMap (fun m =>
            Canvas.xTick x y h (i + 50 * (m : Int)) g.color g.lineStyle g.lineWidth)) } := by
  induction n with
  | zero =>
    intro i g _ hlt
    have hi : ¬ (i ≤ 750) := by simpa using hlt
    rw [Canvas.xAxisLoop, if_neg hi]
    simp
  | succ n ih =>
    intro i g hle hlt
    have hi : i ≤ 750 := by simpa using hle 0 (Nat.succ_pos n)
    rw [Canvas.xAxisLoop, if_pos hi]
    simp only []
    rw [ih (i + 50) _ (fun m hm => by have := hle (m + 1) (by omega); push_cast at this; omega)
      (by push_cast at hlt; omega)]
    rw [List.range_succ_eq_map, List.flatMap_cons, List.flatMap_map]
    simp only [fl_line, fl_draw, Canvas.xTick, List.append_assoc, Nat.cast_zero, mul_zero,
      add_zero, List.cons_append, List.nil_append, Nat.succ_eq_add_one, Nat.cast_add,
      Nat.cast_one]
    have e : ∀ m : Int, i + 50 + 50 * m = i + 50 * (m + 1) := fun m => by ring
    simp only [e]

theorem tdiv_fifty (m : Nat) : Int.tdiv (50 * (m : Int)) 50 = (m : Int) :=
  Int.mul_tdiv_cancel_left (m : Int) (by decide)

theorem program_yTick (m : Nat) (color : Fl_Color) (style width : Int) :
    Canvas.yTick 50 100 450 (0 + 50 * (m : Int)) color style width =
      [Drawn.text (toString (550 - 50 * (m : Int))) 20 (550 - 50 * (m : Int)) color,
       Drawn.line 45 (550 - 50 * (m : Int)) 55 (550 - 50 * (m : Int)) color style width] := by
  have e1 : (0 : Int) + 50 * (m : Int) = 50 * (m : Int) := by omega
  have e2 : (m : Int) * 50 = 50 * (m : Int) := by omega
  have e3 : (100 : Int) + 450 - 50 * (m : Int) = 550 - 50 * (m : Int) := by omega
  have e4 : (50 : Int) - 30 = 20 := by decide
  have e5 : (50 : Int) - 5 = 45 := by decide
  have e6 : (50 : Int) + 5 = 55 := by decide
  simp only [Canvas.yTick, e1, tdiv_fifty, e2, e3, e4, e5, e6]

theorem program_xTick (m : Nat) (color : Fl_Color) (style width : Int) :
    Canvas.xTick 50 100 450 (0 + 50 * (m : Int)) color style width =
      [Drawn.text (toString (50 + 50 * (m : Int))) (50 + 50 * (m : Int)) 565 color,
       Drawn.line (50 + 50 * (m : Int)) 545 (50 + 50 * (m : Int)) 555 color style width] := by
  have e1 : (0 : Int) + 50 * (m : Int) = 50 * (m : Int) := by omega
  have e2 : (m : Int) * 50 = 50 * (m : Int) := by omega
  have e3 : (100 : Int) + 450 + 15 = 565 := by decide
  have e4 : (100 : Int) + 450 - 5 = 545 := by decide
  have e5 : (100 : Int) + 450 + 5 = 555 := by decide
  simp only [Canvas.xTick, e1, tdiv_fifty, e2, e3, e4, e5]

theorem program_yAxisLoop (g : Gfx) :
    Canvas.yAxisLoop 50 100 450 0 g =
      { g with out := (g.out ++ (List.range 10).flatMap (fun m =>
          [Drawn.text (toString (550 - 50 * (m : Int))) 20 (550 - 50 * (m : Int)) g.color,
           Drawn.line 45 (550 - 50 * (m : Int)) 55 (550 - 50 * (m : Int)) g.color g.lineStyle
             g.lineWidth])) } := by
  rw [yAxisLoop_eq 50 100 450 10 0 g (fun m hm => by omega) (by norm_num)]
  simp only [program_yTick]

theorem program_xAxisLoop (g : Gfx) :
    Canvas.xAxisLoop 50 100 450 0 g =
      { g with out := (g.out ++ (List.range 16).flatMap (fun m =>
          [Drawn.text (toString (50 + 50 * (m : Int))) (50 + 50 * (m : Int)) 565 g.color,
           Drawn.line (50 + 50 * (m : Int)) 545 (50 + 50 * (m : Int)) 555 g.color g.lineStyle
             g.lineWidth])) } := by
  rw [xAxisLoop_eq 50 100 450 16 0 g (fun m hm => by omega) (by norm_num)]
  simp only [program_xTick]

theorem program_drawAxes (W : Int) (ss : List Shape) (g : Gfx) :
    (Canvas.drawAxes { x := 50, y := 100, w := W, h := 450, shapes := ss } g).out =
      g.out ++
        [Drawn.rectf 50 100 W 450 FL_WHITE,
         Drawn.line 50 550 (50 + W) 550 FL_BLACK g.lineStyle g.lineWidth,
         Drawn.line 50 100 50 550 FL_BLACK g.lineStyle g.lineWidth] ++
        (List.range 10).flatMap (fun m =>
          [Drawn.text (toString (550 - 50 * (m : Int))) 20 (550 - 50 * (m : Int)) FL_BLACK,
           Drawn.line 45 (550 - 50 * (m : Int)) 55 (550 - 50 * (m : Int)) FL_BLACK g.lineStyle
             g.lineWidth]) ++
        (List.range 16).flatMap (fun m =>
          [Drawn.text (toString (50 + 50 * (m : Int))) (50 + 50 * (m : Int)) 565 FL_BLACK,
           Drawn.line (50 + 50 * (m : Int)) 545 (50 + 50 * (m : Int)) 555 FL_BLACK g.lineStyle
             g.lineWidth]) := by
  simp only [Canvas.drawAxes, program_xAxisLoop, program_yAxisLoop]
  simp [fl_line, fl_rectf, fl_color]

theorem text_not_mem_strokes (segs : List Seg) :
    ∀ (p : PenObj) (s : String) (px py : Int) (col : Fl_Color),
      Drawn.text s px py col ∉ p.strokes segs := by
  induction segs with
  | nil => intro p s px py col; simp [PenObj.strokes]
  | cons a rest ih =>
    intro p s px py col
    simp only [PenObj.strokes, List.mem_cons, not_or]
    exact ⟨by simp, ih p.step s px py col⟩

/-! ## C11: axis labels are the pixel coordinates of their ticks -/

/-- C11. On the canvas the program creates, `Canvas(50, 100, 700, 450)`, whatever shapes have
been added: the Y loop renders one label and one tick mark for each `i = 50*m`, `m = 0..9`
(10 ticks), the tick at screen `y = 550 - i` and the label the decimal text of
`550 - (i/50)*50 = 550 - i`; the X loop renders one label and one tick mark for each
`i = 50*m`, `m = 0..15` (16 ticks), the tick at screen `x = 50 + i` and the label the decimal
text of `50 + (i/50)*50 = 50 + i`, and these 16 are the same for every canvas width `W`.
`Canvas::draw` renders the background, the two axes, these ticks and then the shapes, so every
text it renders is the pixel coordinate of its tick: the first and last Y labels are `550` and
`100`, the first and last X labels `50` and `800`. -/
theorem axis_labels_equal_pixel_coordinates (L : Libm) (W : Int) (ss : List Shape) (g : Gfx) :
    ss.foldl Canvas.addShape (Canvas.new 50 100 700 450) =
      { x := 50, y := 100, w := 700, h := 450, shapes := ss } ∧
    Canvas.yAxisLoop 50 100 450 0 g =
      { g with out := (g.out ++ (List.range 10).flatMap (fun m =>
          [Drawn.text (toString (550 - 50 * (m : Int))) 20 (550 - 50 * (m : Int)) g.color,
           Drawn.line 45 (550 - 50 * (m : Int)) 55 (550 - 50 * (m : Int)) g.color g.lineStyle
             g.lineWidth])) } ∧
    Canvas.xAxisLoop 50 100 450 0 g =
      { g with out := (g.out ++ (List.range 16).flatMap (fun m =>
          [Drawn.text (toString (50 + 50 * (m : Int))) (50 + 50 * (m : Int)) 565 g.color,
           Drawn.line (50 + 50 * (m : Int)) 545 (50 + 50 * (m : Int)) 555 g.color g.lineStyle
             g.lineWidth])) } ∧
    (∀ m : Nat,
      550 - (Int.tdiv (50 * (m : Int)) 50) * 50 = 550 - 50 * (m : Int) ∧
      50 + (Int.tdiv (50 * (m : Int)) 50) * 50 = 50 + 50 * (m : Int)) ∧
    (Canvas.draw L { x := 50, y := 100, w := W, h := 450, shapes := ss } g).2.out =
      g.out ++
        [Drawn.rectf 50 100 W 450 FL_WHITE,
         Drawn.line 50 550 (50 + W) 550 FL_BLACK g.lineStyle g.lineWidth,
         Drawn.line 50 100 50 550 FL_BLACK g.lineStyle g.lineWidth] ++
        (List.range 10).flatMap (fun m =>
          [Drawn.text (toString (550 - 50 * (m : Int))) 20 (550 - 50 * (m : Int)) FL_BLACK,
           Drawn.line 45 (550 - 50 * (m : Int)) 55 (550 - 50 * (m : Int)) FL_BLACK g.lineStyle
             g.lineWidth]) ++
        (List.range 16).flatMap (fun m =>
          [Drawn.text (toString (50 + 50 * (m : Int))) (50 + 50 * (m : Int)) 565 FL_BLACK,
           Drawn.line (50 + 50 * (m : Int)) 545 (50 + 50 * (m : Int)) 555 FL_BLACK g.lineStyle
             g.lineWidth]) ++
        ss.flatMap (fun s => s.pen.strokes (s.segs L)) ∧
    (∀ (s : String) (px py : Int) (col : Fl_Color),
      Drawn.text s px py col ∈
          (Canvas.draw L { x := 50, y := 100, w := W, h := 450, shapes := ss } g).2.out.drop
            g.out.length →
        (px = 20 ∧ s = toString py ∧ ∃ m : Nat, m < 10 ∧ py = 550 - 50 * (m : Int)) ∨
        (py = 565 ∧ s = toString px ∧ ∃ m : Nat, m < 16 ∧ px = 50 + 50 * (m : Int))) ∧
    toString (550 - 50 * ((0 : Nat) : Int)) = "550" ∧
    toString (550 - 50 * ((9 : Nat) : Int)) = "100" ∧
    toString (50 + 50 * ((0 : Nat) : Int)) = "50" ∧
    toString (50 + 50 * ((15 : Nat) : Int)) = "800" := by
  have hout : (Canvas.draw L { x := 50, y := 100, w := W, h := 450, shapes := ss } g).2.out =
      g.out ++
        [Drawn.rectf 50 100 W 450 FL_WHITE,
         Drawn.line 50 550 (50 + W) 550 FL_BLACK g.lineStyle g.lineWidth,
         Drawn.line 50 100 50 550 FL_BLACK g.lineStyle g.lineWidth] ++
        (List.range 10).flatMap (fun m =>
          [Drawn.text (toString (550 - 50 * (m : Int))) 20 (550 - 50 * (m : Int)) FL_BLACK,
           Drawn.line 45 (550 - 50 * (m : Int)) 55 (550 - 50 * (m : Int)) FL_BLACK g.lineStyle
             g.lineWidth]) ++
        (List.range 16).flatMap (fun m =>
          [Drawn.text (toString (50 + 50 * (m : Int))) (50 + 50 * (m : Int)) 565 FL_BLACK,
           Drawn.line (50 + 50 * (m : Int)) 545 (50 + 50 * (m : Int)) 555 FL_BLACK g.lineStyle
             g.lineWidth]) ++
        ss.flatMap (fun s => s.pen.strokes (s.segs L)) := by
    simp only [Canvas.draw, drawShapes_out, program_drawAxes]
  refine ⟨?_, program_yAxisLoop g, program_xAxisLoop g, ?_, hout, ?_, by decide, by decide,
    by decide, by decide⟩
  · have h := foldl_addShape ss (Canvas.new 50 100 700 450)
    have hb : ∀ (l : List Shape) (c : Canvas),
        (l.foldl Canvas.addShape c).x = c.x ∧ (l.foldl Canvas.addShape c).y = c.y ∧
        (l.foldl Canvas.addShape c).w = c.w ∧ (l.foldl Canvas.addShape c).h = c.h := by
      intro l
      induction l with
      | nil => intro c; simp
      | cons a rest ih => intro c; simpa [Canvas.addShape] using ih (c.addShape a)
    obtain ⟨h1, h2, h3, h4⟩ := hb ss (Canvas.new 50 100 700 450)
    cases hc : ss.foldl Canvas.addShape (Canvas.new 50 100 700 450) with
    | mk cx cy cw ch cs =>
      rw [hc] at h h1 h2 h3 h4
      simp only [Canvas.new, List.nil_append] at h h1 h2 h3 h4
      subst h h1 h2 h3 h4
      rfl
  · intro m
    rw [tdiv_fifty]
    constructor <;> omega
  · intro s px py col hmem
    rw [hout] at hmem
    simp only [List.append_assoc, List.drop_left] at hmem
    simp only [List.mem_append, List.mem_flatMap, List.mem_range, List.mem_cons,
      List.mem_singleton, List.not_mem_nil, or_false] at hmem
    rcases hmem with h | h | h | h
    · rcases h with h | h | h <;> simp at h
    · obtain ⟨m, hm, h⟩ := h
      rcases h with h | h
      · simp only [Drawn.text.injEq] at h
        obtain ⟨hs, hx, hy, _⟩ := h
        left
        exact ⟨hx, by rw [hs, hy], m, hm, hy⟩
      · simp at h
    · obtain ⟨m, hm, h⟩ := h
      rcases h with h | h
      · simp only [Drawn.text.injEq] at h
        obtain ⟨hs, hx, hy, _⟩ := h
        right
        exact ⟨hy, by rw [hs, hx], m, hm, hx⟩
      · simp at h
    · obtain ⟨a, _, h⟩ := h
      exact absurd h (text_not_mem_strokes _ _ _ _ _ _)

end ShapeDrawer
